import Mathlib

/-!
Verification of the oopsy node-graph construction and code-emission core
(`oopsy.js` / `oopsy.shared.js`), shallowly embedded in Lean.

Strings are modelled by Lean `String` (JS strings over code units; all
relevant data is ASCII, where Lean `Char` and JS code units agree).
JS numbers are modelled by `ℚ` (exact arithmetic; the code only performs
comparisons, subtraction, division by 100, `Number.isInteger` tests and
`2^round(log2 x)`, all of which are exact on the rationals that occur).
JS objects used as string-keyed tables are modelled by association lists
in insertion order, matching `Object.keys` enumeration order.
-/

namespace Oopsy

/-! ## Generic string / list helpers (models of JS primitives) -/

/-- Lexicographic strict order on char lists by code unit, as used by the
JS default `Array.prototype.sort()` comparator on strings. -/
def lexLt : List Char → List Char → Bool
  | [], [] => false
  | [], _ :: _ => true
  | _ :: _, [] => false
  | a :: as, b :: bs =>
    if a.toNat < b.toNat then true
    else if b.toNat < a.toNat then false
    else lexLt as bs

/-- `a ≤ b` in JS string comparison order. -/
def strLe (a b : String) : Bool := ! lexLt b.data a.data

/-- Stable insertion into a list sorted by `le`. -/
def insertLe {α : Type} (le : α → α → Bool) (x : α) : List α → List α
  | [] => [x]
  | y :: ys => if le x y then x :: y :: ys else y :: insertLe le x ys

/-- Stable insertion sort; models `Array.prototype.sort` (which is stable)
with a comparator whose order is `le`. -/
def sortLe {α : Type} (le : α → α → Bool) : List α → List α
  | [] => []
  | x :: xs => insertLe le x (sortLe le xs)

theorem mem_insertLe {α : Type} (le : α → α → Bool) (x : α) (l : List α) (y : α) :
    y ∈ insertLe le x l ↔ y = x ∨ y ∈ l := by
  induction l with
  | nil => simp [insertLe]
  | cons a as ih =>
    simp only [insertLe]
    by_cases h : le x a = true
    · simp [h]
    · simp only [Bool.not_eq_true] at h
      simp [h, ih]
      tauto

theorem mem_sortLe {α : Type} (le : α → α → Bool) (l : List α) (y : α) :
    y ∈ sortLe le l ↔ y ∈ l := by
  induction l with
  | nil => simp [sortLe]
  | cons a as ih => simp [sortLe, mem_insertLe, ih]

/-- `isPrefixChars p s` : the char list `p` is a prefix of `s`. -/
def isPrefixChars : List Char → List Char → Bool
  | [], _ => true
  | _ :: _, [] => false
  | a :: as, b :: bs => a == b && isPrefixChars as bs

/-- `strStartsWith s p` : the string `s` starts with `p`.  This models the
fact that the regex `^<key>_?(.+)?` accepts a label exactly when `<key>`
is a literal prefix of the label (both optional parts may match empty,
and the table keys contain no regex metacharacters). -/
def strStartsWith (s p : String) : Bool := isPrefixChars p.data s.data

/-- Generic shape of the `Object.keys(tbl).sort().forEach(k => if (match) ...)`
loops (a left fold where every successful test overwrites the accumulator):
when no element passes the test the initial value survives. -/
theorem foldl_overwrite_of_filter_nil {α β : Type} (p : α → Bool) (g : α → β)
    (l : List α) (init : Option β) (h : l.filter p = []) :
    l.foldl (fun acc k => if p k then some (g k) else acc) init = init := by
  induction l generalizing init with
  | nil => rfl
  | cons a as ih =>
    rw [List.filter_cons] at h
    by_cases hp : p a = true
    · simp [hp] at h
    · simp only [Bool.not_eq_true] at hp
      simp only [hp, Bool.false_eq_true, if_false] at h ⊢
      simp only [List.foldl_cons, hp, Bool.false_eq_true, if_false]
      exact ih _ h

/-- Generic shape of the `sort().forEach` overwrite loops: when at least one
element passes the test, the fold returns the payload of the last passing
element. -/
theorem foldl_overwrite_eq_getLast {α β : Type} (p : α → Bool) (g : α → β)
    (l : List α) (init : Option β) (h : l.filter p ≠ []) :
    l.foldl (fun acc k => if p k then some (g k) else acc) init
      = ((l.filter p).getLast?).map g := by
  induction l generalizing init with
  | nil => simp at h
  | cons a as ih =>
    by_cases hrest : as.filter p = []
    · have hpa : p a = true := by
        by_contra hpa
        simp only [Bool.not_eq_true] at hpa
        rw [List.filter_cons] at h
        simp [hpa, hrest] at h
      simp only [List.foldl_cons, hpa, if_true]
      rw [foldl_overwrite_of_filter_nil p g as _ hrest]
      rw [List.filter_cons, if_pos hpa, hrest]
      rfl
    · simp only [List.foldl_cons]
      rw [ih _ hrest]
      rw [List.filter_cons]
      by_cases hpa : p a = true
      · rw [if_pos hpa]
        match hflt : as.filter p with
        | [] => exact absurd hflt hrest
        | b :: bs => rw [List.getLast?_cons_cons]
      · simp only [Bool.not_eq_true] at hpa
        rw [hpa]
        simp

/-! ## Label resolution (oopsy.js `generate_app`, outlet / param / data matching)

The code pattern is:

  Object.keys(hardware.labels.outs).sort().forEach(k => \x7b
    if (match = new RegExp(`^$\x7bk\x7d_?(.+)?`).exec(label)) \x7b
      map = hardware.labels.outs[k];
      maplabel = match[1] || label
    \x7d
  \x7d)

Every later (in sorted key order) successful prefix match overwrites the
earlier one, so the final `map` belongs to the last matching key. -/

/-- Sort an association list by key in JS string order, modelling
`Object.keys(tbl).sort()` followed by value lookup (keys are unique). -/
def sortPairs (tbl : List (String × String)) : List (String × String) :=
  sortLe (fun a b => strLe a.1 b.1) tbl

/-- The capture group of `^<key>_?(.+)?` applied to a label that starts with
`key`: the part of the label after the key and an optional single
underscore, or `none` when that part is empty (the group is then
undefined in JS). -/
def capture (k label : String) : Option String :=
  let rest := label.data.drop k.data.length
  let rest2 := match rest with
    | '_' :: t => t
    | t => t
  if rest2.isEmpty then none else some (String.mk rest2)

/-- One resolution pass over a label table (oopsy.js lines 764-786 for
outlets; the same sorted-prefix-overwrite loop also runs for params and
datas).  Returns `(chosen key, table value, surviving label)`; the JS keeps
only the value and the label, but the value is the table entry of the
chosen key, which we record explicitly. -/
def resolveOutFull (tbl : List (String × String)) (label : String) :
    Option (String × String × String) :=
  (sortPairs tbl).foldl
    (fun acc kv =>
      if strStartsWith label kv.1 then
        some (kv.1, kv.2, (capture kv.1 label).getD label)
      else acc)
    none

/-- The key an outlet label resolves to. -/
def resolveOutKey (tbl : List (String × String)) (label : String) : Option String :=
  (resolveOutFull tbl label).map (fun r => r.1)

/-- The sorted key order the resolution loop iterates in. -/
def sortedKeys (tbl : List (String × String)) : List String :=
  (sortPairs tbl).map Prod.fst

theorem resolveOutKey_eq_getLast (tbl : List (String × String)) (label : String)
    (h : (sortedKeys tbl).filter (fun k => strStartsWith label k) ≠ []) :
    resolveOutKey tbl label
      = ((sortedKeys tbl).filter (fun k => strStartsWith label k)).getLast? := by
  have hcomm : (sortedKeys tbl).filter (fun k => strStartsWith label k)
      = ((sortPairs tbl).filter (fun kv => strStartsWith label kv.1)).map Prod.fst := by
    unfold sortedKeys
    rw [List.filter_map]
    rfl
  have hfilt : ((sortPairs tbl).filter (fun kv => strStartsWith label kv.1)) ≠ [] := by
    intro hnil
    rw [hcomm, hnil] at h
    exact h rfl
  unfold resolveOutKey resolveOutFull
  rw [foldl_overwrite_eq_getLast (fun kv : String × String => strStartsWith label kv.1)
    (fun kv => (kv.1, kv.2, (capture kv.1 label).getD label)) (sortPairs tbl) none hfilt]
  rw [hcomm, List.getLast?_map]
  cases ((sortPairs tbl).filter (fun kv => strStartsWith label kv.1)).getLast? with
  | none => rfl
  | some v => rfl

/-- C1: for every outlet label that is prefix-matched (via `^<key>_?(.+)?`)
by more than one key of the hardware output-label table, the key chosen as
the outlet's mapping is the last matching key in the lexicographically
sorted order of the table's keys, and re-running the resolution on the same
table and label yields the same key (the resolution is a pure function of
the table and the label, so it is deterministic and idempotent). -/
theorem c1_last_lex_match_wins (tbl : List (String × String)) (label : String)
    (h : 1 < ((sortedKeys tbl).filter (fun k => strStartsWith label k)).length) :
    resolveOutKey tbl label
      = ((sortedKeys tbl).filter (fun k => strStartsWith label k)).getLast?
    ∧ resolveOutKey tbl label = resolveOutKey tbl label := by
  refine ⟨resolveOutKey_eq_getLast tbl label ?_, rfl⟩
  intro hnil
  rw [hnil] at h
  exact absurd h (by decide)

/-- Witness for C1: with output-label table keys `knob` and `knob1`, the
label `knob1_freq` is matched by both keys, and resolution picks `knob1`,
the last match in sorted key order. -/
theorem c1_witness :
    1 < ((sortedKeys [("knob1", "knob1"), ("knob", "knob")]).filter
          (fun k => strStartsWith ("knob1_freq") k)).length
    ∧ resolveOutKey [("knob1", "knob1"), ("knob", "knob")] ("knob1_freq")
        = some ("knob1") := by
  refine ⟨by decide, ?_⟩
  rw [(c1_last_lex_match_wins [("knob1", "knob1"), ("knob", "knob")] ("knob1_freq")
    (by decide)).1]
  decide

/-! ## Automap fill-pass (oopsy.js `generate_app`, lines 890-906)

  let upi=0;
  let param = rnbo.params[upi];
  Object.keys(hardware.inputs).forEach(name => \x7b
    const node = nodes[name];
    if (node.to.length == 0 && node.automap) \x7b
      while (param && !!nodes[param].src) param = rnbo.params[++upi];
      if (param) \x7b nodes[param].src = name; node.to.push(param); \x7d
    \x7d
  \x7d)

Parameters are modelled by their `src` fields in declaration order. -/

/-- A hardware-input-table node as seen by the fill-pass: its table key,
its `automap` flag and its accumulated `to` list (named `toL` here because
`to` is reserved in Lean). -/
structure HIn where
  name : String
  automap : Bool
  toL : List String

/-- The `while (param && !!nodes[param].src) param = rnbo.params[++upi]`
advance: the first index `j ≥ i` whose parameter still has no `src`
(or an index past the end when every remaining parameter is taken). -/
def skipSet (ps : List (Option String)) (i : Nat) : Nat :=
  match h : ps[i]? with
  | some (some _) => skipSet ps (i + 1)
  | some none => i
  | none => i
termination_by ps.length - i
decreasing_by
  have hi : i < ps.length := (List.getElem?_eq_some.mp h).1
  omega

/-- The fill-pass itself.  Input state: the hardware-input nodes in table
order and the parameter `src` fields in declaration order; returns the
updated `src` list and the list of created (input name, parameter index)
edges, in creation order.  (The `some (some _)` branch is unreachable:
`skipSet` never stops on a taken parameter; the `none` branch is the JS
`param === undefined` case, in which nothing further is ever assigned.) -/
def fillPass : List HIn → List (Option String) → Nat →
    (List (Option String) × List (String × Nat))
  | [], ps, _ => (ps, [])
  | inp :: rest, ps, upi =>
    if inp.automap && (inp.toL.length == 0) then
      let j := skipSet ps upi
      match ps[j]? with
      | some none =>
        let r := fillPass rest (ps.set j (some inp.name)) j
        (r.1, (inp.name, j) :: r.2)
      | some (some _) => fillPass rest ps j
      | none => fillPass rest ps j
    else fillPass rest ps upi

/-- The names of the automappable, still-unmapped hardware inputs, in table
order. -/
def autoNames (inputs : List HIn) : List String :=
  (inputs.filter (fun x => x.automap && (x.toL.length == 0))).map HIn.name

/-- Indices (offset by `base`) of the parameters that still lack a `src`,
in declaration order. -/
def noneIdxFrom : List (Option String) → Nat → List Nat
  | [], _ => []
  | none :: rest, i => i :: noneIdxFrom rest (i + 1)
  | some _ :: rest, i => noneIdxFrom rest (i + 1)

theorem skipSet_facts (ps : List (Option String)) :
    ∀ (n i : Nat), ps.length ≤ i + n →
      i ≤ skipSet ps i
      ∧ (∀ k, i ≤ k → k < skipSet ps i → ∃ v, ps[k]? = some (some v))
      ∧ (∀ v, ps[skipSet ps i]? ≠ some (some v)) := by
  intro n
  induction n with
  | zero =>
    intro i hlen
    have hnone : ps[i]? = none := List.getElem?_eq_none (by omega)
    rw [skipSet]
    split
    · rename_i v heq
      rw [hnone] at heq
      exact absurd heq (by simp)
    · rename_i heq
      rw [hnone] at heq
      exact absurd heq (by simp)
    · refine ⟨le_refl i, fun k hik hlt => absurd hlt (by omega), fun v hv => ?_⟩
      rw [hnone] at hv
      exact Option.noConfusion hv
  | succ n ih =>
    intro i hlen
    rw [skipSet]
    split
    · rename_i v heq
      have hi : i < ps.length := (List.getElem?_eq_some.mp heq).1
      have ⟨h1, h2, h3⟩ := ih (i + 1) (by omega)
      refine ⟨by omega, ?_, h3⟩
      intro k hik hlt
      rcases Nat.eq_or_lt_of_le hik with rfl | hik2
      · exact ⟨v, heq⟩
      · exact h2 k hik2 hlt
    · rename_i heq
      refine ⟨le_refl i, fun k hik hlt => absurd hlt (by omega), fun v hv => ?_⟩
      rw [heq] at hv
      exact Option.noConfusion (Option.some.inj hv)
    · rename_i heq
      refine ⟨le_refl i, fun k hik hlt => absurd hlt (by omega), fun v hv => ?_⟩
      rw [heq] at hv
      exact Option.noConfusion hv

theorem skipSet_le (ps : List (Option String)) (i : Nat) : i ≤ skipSet ps i :=
  (skipSet_facts ps ps.length i (by omega)).1

theorem skipSet_mid (ps : List (Option String)) (i : Nat) :
    ∀ k, i ≤ k → k < skipSet ps i → ∃ v, ps[k]? = some (some v) :=
  (skipSet_facts ps ps.length i (by omega)).2.1

theorem skipSet_stop (ps : List (Option String)) (i : Nat) :
    ∀ v, ps[skipSet ps i]? ≠ some (some v) :=
  (skipSet_facts ps ps.length i (by omega)).2.2

theorem noneIdxFrom_all_set (ps : List (Option String)) (base : Nat)
    (h : ∀ k : Nat, ps[k]? ≠ some none) : noneIdxFrom ps base = [] := by
  induction ps generalizing base with
  | nil => rfl
  | cons x rest ih =>
    cases x with
    | none => exact absurd (by simp) (h 0)
    | some v =>
      simp only [noneIdxFrom]
      exact ih (base + 1) (fun k => by simpa using h (k + 1))

theorem noneIdxFrom_first (ps : List (Option String)) (a : String) :
    ∀ (j base : Nat), (∀ k, k < j → ps[k]? ≠ some none) → ps[j]? = some none →
    noneIdxFrom ps base = (base + j) :: noneIdxFrom (ps.set j (some a)) base := by
  induction ps with
  | nil => intro j base _ hj; simp at hj
  | cons x rest ih =>
    intro j base hbelow hj
    cases j with
    | zero =>
      simp only [List.getElem?_cons_zero, Option.some.injEq] at hj
      subst hj
      simp [noneIdxFrom, List.set]
    | succ j =>
      have hx : x ≠ none := by
        intro hx
        subst hx
        exact hbelow 0 (Nat.succ_pos j) (by simp)
      cases x with
      | none => exact absurd rfl hx
      | some v =>
        simp only [List.getElem?_cons_succ] at hj
        have hbelow2 : ∀ k, k < j → rest[k]? ≠ some none := by
          intro k hk
          have := hbelow (k + 1) (by omega)
          simpa using this
        simp only [noneIdxFrom, List.set]
        rw [ih j (base + 1) hbelow2 hj]
        congr 1
        omega

theorem noneIdxFrom_length (ps : List (Option String)) (base : Nat) :
    (noneIdxFrom ps base).length = (ps.filter Option.isNone).length := by
  induction ps generalizing base with
  | nil => rfl
  | cons x rest ih =>
    cases x with
    | none => simp [noneIdxFrom, List.filter, ih]
    | some v => simp [noneIdxFrom, List.filter, ih]

theorem mem_noneIdxFrom (ps : List (Option String)) :
    ∀ (base j : Nat), j ∈ noneIdxFrom ps base → base ≤ j ∧ ps[j - base]? = some none := by
  induction ps with
  | nil => intro base j h; simp [noneIdxFrom] at h
  | cons x rest ih =>
    intro base j h
    cases x with
    | none =>
      simp only [noneIdxFrom, List.mem_cons] at h
      rcases h with rfl | h
      · simp
      · have := ih (base + 1) j h
        refine ⟨by omega, ?_⟩
        have hj : j - base = (j - (base + 1)) + 1 := by omega
        rw [hj, List.getElem?_cons_succ]
        exact this.2
    | some v =>
      simp only [noneIdxFrom] at h
      have := ih (base + 1) j h
      refine ⟨by omega, ?_⟩
      have hj : j - base = (j - (base + 1)) + 1 := by omega
      rw [hj, List.getElem?_cons_succ]
      exact this.2

theorem noneIdxFrom_pairwise (ps : List (Option String)) :
    ∀ base : Nat, (noneIdxFrom ps base).Pairwise (· < ·) := by
  induction ps with
  | nil => intro base; exact List.Pairwise.nil
  | cons x rest ih =>
    intro base
    cases x with
    | none =>
      simp only [noneIdxFrom]
      refine List.Pairwise.cons ?_ (ih (base + 1))
      intro j hj
      have := mem_noneIdxFrom rest (base + 1) j hj
      omega
    | some v => exact ih (base + 1)

theorem fillPass_edges (inputs : List HIn) :
    ∀ (ps : List (Option String)) (upi : Nat),
    (∀ k, k < upi → ps[k]? ≠ some none) →
    (fillPass inputs ps upi).2 = (autoNames inputs).zip (noneIdxFrom ps 0) := by
  induction inputs with
  | nil => intro ps upi _; rfl
  | cons inp rest ih =>
    intro ps upi H
    by_cases hc : (inp.automap && (inp.toL.length == 0)) = true
    · have hauto : autoNames (inp :: rest) = inp.name :: autoNames rest := by
        simp [autoNames, List.filter, hc]
      have hbelow : ∀ k, k < skipSet ps upi → ps[k]? ≠ some none := by
        intro k hk
        by_cases hku : k < upi
        · exact H k hku
        · have ⟨v, hv⟩ := skipSet_mid ps upi k (by omega) hk
          rw [hv]
          intro hcontr
          exact Option.noConfusion (Option.some.inj hcontr)
      simp only [fillPass, hc, if_true]
      split
      · rename_i hj
        have hset : ∀ k, k < skipSet ps upi →
            (ps.set (skipSet ps upi) (some inp.name))[k]? ≠ some none := by
          intro k hk
          rw [List.getElem?_set_ne (by omega)]
          exact hbelow k hk
        rw [ih (ps.set (skipSet ps upi) (some inp.name)) (skipSet ps upi) hset]
        rw [noneIdxFrom_first ps inp.name (skipSet ps upi) 0 hbelow hj]
        rw [hauto, Nat.zero_add, List.zip_cons_cons]
      · rename_i v hj
        exact absurd hj (skipSet_stop ps upi v)
      · rename_i hnone
        have hallset : ∀ k : Nat, ps[k]? ≠ some none := by
          intro k
          by_cases hk : k < skipSet ps upi
          · exact hbelow k hk
          · have hlen : ps.length ≤ skipSet ps upi := by
              by_contra hlt
              push_neg at hlt
              rw [List.getElem?_eq_getElem hlt] at hnone
              exact Option.noConfusion hnone
            rw [List.getElem?_eq_none (by omega)]
            intro hcontr
            exact Option.noConfusion hcontr
        rw [ih ps (skipSet ps upi) hbelow]
        rw [noneIdxFrom_all_set ps 0 hallset]
        rw [hauto]
        simp
    · have hauto : autoNames (inp :: rest) = autoNames rest := by
        simp only [Bool.not_eq_true] at hc
        simp [autoNames, List.filter, hc]
      simp only [fillPass, hc, Bool.false_eq_true, if_false]
      rw [ih ps upi H, hauto]

/-- `map Prod.snd (zip a b)` is a sublist of `b`. -/
theorem map_snd_zip_sublist {α β : Type} :
    ∀ (a : List α) (b : List β), ((a.zip b).map Prod.snd).Sublist b := by
  intro a
  induction a with
  | nil => intro b; simp
  | cons x xs ih =>
    intro b
    cases b with
    | nil => simp
    | cons y ys =>
      simp only [List.zip_cons_cons, List.map_cons]
      exact List.Sublist.cons₂ y (ih ys)

/-- C3: the automap fill-pass pairs the automappable still-unmapped
hardware inputs, in table order, with the parameters that still lack a
controlling input, in declaration order; it creates exactly `min N M` new
edges, and no parameter receives two controlling inputs (the edge targets
are pairwise distinct parameter indices, each of which previously had no
`src`). -/
theorem c3_automap_fill_pass (inputs : List HIn) (ps : List (Option String)) :
    (fillPass inputs ps 0).2 = (autoNames inputs).zip (noneIdxFrom ps 0)
    ∧ (fillPass inputs ps 0).2.length
        = min (inputs.filter (fun x => x.automap && (x.toL.length == 0))).length
              (ps.filter Option.isNone).length
    ∧ ((fillPass inputs ps 0).2.map Prod.snd).Nodup
    ∧ ∀ e ∈ (fillPass inputs ps 0).2, ps[e.2]? = some none := by
  have hedges := fillPass_edges inputs ps 0 (fun k hk => absurd hk (by omega))
  refine ⟨hedges, ?_, ?_, ?_⟩
  · rw [hedges, List.length_zip, autoNames, List.length_map,
      noneIdxFrom_length ps 0]
  · rw [hedges]
    have hsub := map_snd_zip_sublist (autoNames inputs) (noneIdxFrom ps 0)
    exact List.Sublist.nodup hsub
      ((noneIdxFrom_pairwise ps 0).imp (fun h => Nat.ne_of_lt h))
  · intro e he
    rw [hedges] at he
    have hmem := (List.of_mem_zip he).2
    have := (mem_noneIdxFrom ps 0 e.2 hmem).2
    simpa using this

/-- Witness for C3: two automappable unmapped inputs against parameters
`[unset, taken, unset]` — the fill-pass pairs them with parameter indices
0 and 2, and each edge targets a parameter that previously had no
controlling input. -/
theorem c3_witness :
    (fillPass [⟨("knob1"), true, []⟩, ⟨("knob2"), true, []⟩]
        [none, some ("x"), none] 0).2
      = (autoNames [⟨("knob1"), true, []⟩, ⟨("knob2"), true, []⟩]).zip
          (noneIdxFrom [none, some ("x"), none] 0)
    ∧ ([none, some ("x"), none] : List (Option String))[((("knob1"), 0) : String × Nat).2]?
        = some none := by
  have h1 := (c3_automap_fill_pass [⟨("knob1"), true, []⟩, ⟨("knob2"), true, []⟩]
    [none, some ("x"), none]).1
  have hmem : ((("knob1"), 0) : String × Nat)
      ∈ (fillPass [⟨("knob1"), true, []⟩, ⟨("knob2"), true, []⟩]
          [none, some ("x"), none] 0).2 := by
    rw [h1]
    decide
  exact ⟨h1, (c3_automap_fill_pass [⟨("knob1"), true, []⟩, ⟨("knob2"), true, []⟩]
    [none, some ("x"), none]).2.2.2 (("knob1"), 0) hmem⟩

/-! ## Parameter nodes and numeric policy (oopsy.js `generate_app`, lines 790-852)

JS numbers are modelled exactly on `ℚ`; `Number.isInteger x` becomes
`x.den = 1`, and `Math.pow(2, Math.round(Math.log2 x))` is computed
exactly (`roundLog2` below). -/

/-- JS `node.x = node.x || d` on a numeric field: `undefined` (absent) and
the falsy number `0` both yield the default `d`. -/
def jsOr (v : Option ℚ) (d : ℚ) : ℚ :=
  match v with
  | none => d
  | some x => if x = 0 then d else x

/-- `Math.round(Math.log2 q)` for a positive rational `q`, computed exactly:
`Int.log 2 q` is `⌊log₂ q⌋`, and rounding up happens exactly when
`log₂ q ≥ ⌊log₂ q⌋ + 1/2`, i.e. when `q² ≥ 2^(2⌊log₂ q⌋ + 1)`.  (For
rational `q` the tie `q² = 2^odd` is impossible, so round-half-up never
actually ties; double rounding in JS is modelled as exact.) -/
def roundLog2 (q : ℚ) : ℤ :=
  let f := Int.log 2 q
  if q ^ 2 < 2 ^ (2 * f + 1) then f else f + 1

theorem roundLog2_window (q : ℚ) (hq : 0 < q) :
    2 ^ (2 * roundLog2 q - 1) ≤ q ^ 2 ∧ q ^ 2 < 2 ^ (2 * roundLog2 q + 1) := by
  unfold roundLog2
  set f := Int.log 2 q with hf
  by_cases h : q ^ 2 < 2 ^ (2 * f + 1)
  · rw [if_pos h]
    refine ⟨?_, h⟩
    have h1 : (2:ℚ) ^ f ≤ q := Int.zpow_log_le_self (by norm_num) hq
    have hpow : (0:ℚ) < 2 ^ f := zpow_pos (by norm_num) f
    have h3 : (2:ℚ) ^ (2 * f) ≤ q ^ 2 := by
      rw [two_mul, zpow_add₀ (by norm_num : (2:ℚ) ≠ 0), pow_two]
      exact mul_le_mul h1 h1 (le_of_lt hpow) (le_trans (le_of_lt hpow) h1)
    refine le_trans ?_ h3
    exact (zpow_le_zpow_iff_right₀ (by norm_num : (1:ℚ) < 2)).mpr (by omega)
  · rw [if_neg h]
    push_neg at h
    constructor
    · have : 2 * (f + 1) - 1 = 2 * f + 1 := by ring
      rw [this]
      exact h
    · have h1 : q < (2:ℚ) ^ (f + 1) := Int.lt_zpow_succ_log_self (by norm_num) q
      have h2 : q ^ 2 < (2:ℚ) ^ (2 * (f + 1)) := by
        rw [two_mul, zpow_add₀ (by norm_num : (2:ℚ) ≠ 0), pow_two]
        exact mul_lt_mul_of_nonneg h1 h1 (le_of_lt hq) (le_of_lt hq)
      refine lt_of_lt_of_le h2 ?_
      exact (zpow_le_zpow_iff_right₀ (by norm_num : (1:ℚ) < 2)).mpr (by omega)

theorem roundLog2_unique (q : ℚ) (k : ℤ) (hq : 0 < q)
    (hlo : 2 ^ (2 * k - 1) ≤ q ^ 2) (hhi : q ^ 2 < 2 ^ (2 * k + 1)) :
    roundLog2 q = k := by
  have ⟨wlo, whi⟩ := roundLog2_window q hq
  have h1 : (2:ℚ) ^ (2 * k - 1) < 2 ^ (2 * roundLog2 q + 1) := lt_of_le_of_lt hlo whi
  have h2 : (2:ℚ) ^ (2 * roundLog2 q - 1) < 2 ^ (2 * k + 1) := lt_of_le_of_lt wlo hhi
  have e1 := (zpow_lt_zpow_iff_right₀ (by norm_num : (1:ℚ) < 2)).mp h1
  have e2 := (zpow_lt_zpow_iff_right₀ (by norm_num : (1:ℚ) < 2)).mp h2
  omega

/-- The encoder step-size derivation (oopsy.js lines 826-845), as a pure
function of the node's derived type, range, max and default.  Note: the
source tests `Number.isInteger(node.max)` twice and never tests `node.min`;
the duplicated `mx.den = 1` conjunct reproduces that.  None of the branch
values `1`, `1/12`, `2^k` is falsy, so the trailing
`if (!node.stepsize) node.stepsize = node.range / ideal_steps` fires
exactly when no branch assigned a step size. -/
def deriveStepsize (type : String) (range mx df : ℚ) : ℚ :=
  if type == ("bool") || type == ("int") then 1
  else if 2 < range ∧ mx.den = 1 ∧ mx.den = 1 ∧ df.den = 1 then
    if range < 10 then 1 / 12
    else 2 ^ roundLog2 (range / 100)
  else range / 100

/-- The type-qualifier test `label.match(/^(int|bool)(_(.*))?$/)`: returns
the detected type and the new label (`match[3] || label`; an empty trailing
fragment is falsy, so the label then stays whole). -/
def typeQual (label : String) : Option (String × String) :=
  if label = ("int") then some (("int"), label)
  else if strStartsWith label ("int_") then
    let r := String.mk (label.data.drop 4)
    some (("int"), if r = ("") then label else r)
  else if label = ("bool") then some (("bool"), label)
  else if strStartsWith label ("bool_") then
    let r := String.mk (label.data.drop 5)
    some (("bool"), if r = ("") then label else r)
  else none

/-- The parameter-name resolution loop (oopsy.js lines 804-820): the same
sorted-prefix-overwrite scan as for outlets, additionally detecting an
`int`/`bool` qualifier on the captured label; the accumulator carries
`(src, label, type)`, with `type` persisting across matches that carry no
qualifier (it starts as "float"). -/
def resolveParam (tbl : List (String × String)) (pname : String) :
    Option String × String × String :=
  (sortPairs tbl).foldl
    (fun acc kv =>
      if strStartsWith pname kv.1 then
        let lab := (capture kv.1 pname).getD pname
        match typeQual lab with
        | some tl => (some kv.2, tl.2, tl.1)
        | none => (some kv.2, lab, acc.2.2)
      else acc)
    (none, pname, ("float"))

/-- A visible parameter of the patch descriptor; `none` models an absent
field. -/
structure PDesc where
  name : String
  cindex : Nat
  dflt : Option ℚ
  min : Option ℚ
  max : Option ℚ

/-- The finished parameter node. -/
structure PNode where
  varname : String
  cindex : Nat
  max : ℚ
  min : ℚ
  dflt : ℚ
  range : ℚ
  type : String
  src : Option String
  label : String
  stepsize : ℚ

/-- Construction of one parameter node (oopsy.js lines 790-852). -/
def mkParamNode (tbl : List (String × String)) (p : PDesc) : PNode :=
  let varname := ("rnbo_param_") ++ p.name ++ ("_") ++ toString p.cindex
  let mx := jsOr p.max 1
  let mn := jsOr p.min 0
  let df := jsOr p.dflt 0
  let range := mx - mn
  let r := resolveParam tbl p.name
  { varname := varname, cindex := p.cindex, max := mx, min := mn,
    dflt := df, range := range, type := r.2.2, src := r.1, label := r.2.1,
    stepsize := deriveStepsize r.2.2 range mx df }

/-- C6 counterexample: an explicitly supplied `max` of `0` is not
preserved — JS `node.max = node.max || 1` treats the explicit `0` as falsy
and replaces it by the default `1`, contradicting the claim that explicit
zeros are preserved. -/
theorem c6_counterexample :
    (mkParamNode [] ⟨("gain"), 0, none, none, some 0⟩).max = 1
    ∧ ¬ (mkParamNode [] ⟨("gain"), 0, none, none, some 0⟩).max = 0 := by
  constructor
  · simp [mkParamNode, jsOr]
  · simp [mkParamNode, jsOr]

/-- C6 (amended): `min` defaults to `0` and `default` to `0` when absent
and explicitly supplied values of those two fields are preserved (an
explicit `0` coincides with the default); `max` defaults to `1` both when
absent and when explicitly `0` (any other explicit value is preserved);
and the node's range always equals `max - min`. -/
theorem c6_param_defaults (tbl : List (String × String)) (p : PDesc) :
    ((p.max = none ∨ p.max = some 0) → (mkParamNode tbl p).max = 1)
    ∧ (∀ x : ℚ, p.max = some x → x ≠ 0 → (mkParamNode tbl p).max = x)
    ∧ (p.min = none → (mkParamNode tbl p).min = 0)
    ∧ (∀ x : ℚ, p.min = some x → (mkParamNode tbl p).min = x)
    ∧ (p.dflt = none → (mkParamNode tbl p).dflt = 0)
    ∧ (∀ x : ℚ, p.dflt = some x → (mkParamNode tbl p).dflt = x)
    ∧ (mkParamNode tbl p).range = (mkParamNode tbl p).max - (mkParamNode tbl p).min := by
  refine ⟨?_, ?_, ?_, ?_, ?_, ?_, rfl⟩
  · rintro (h | h) <;> simp [mkParamNode, jsOr, h]
  · intro x hx hne
    simp [mkParamNode, jsOr, hx, hne]
  · intro h
    simp [mkParamNode, jsOr, h]
  · intro x hx
    by_cases h0 : x = 0
    · subst h0
      simp [mkParamNode, jsOr, hx]
    · simp [mkParamNode, jsOr, hx, h0]
  · intro h
    simp [mkParamNode, jsOr, h]
  · intro x hx
    by_cases h0 : x = 0
    · subst h0
      simp [mkParamNode, jsOr, hx]
    · simp [mkParamNode, jsOr, hx, h0]

/-- Witness for C6 (amended): explicit `max = 2`, explicit `min = 0`,
absent default. -/
theorem c6_witness :
    (mkParamNode [] ⟨("p"), 0, none, some 0, some 2⟩).max = 2
    ∧ (mkParamNode [] ⟨("p"), 0, none, some 0, some 2⟩).min = 0
    ∧ (mkParamNode [] ⟨("p"), 0, none, some 0, some 2⟩).dflt = 0
    ∧ (mkParamNode [] ⟨("p"), 0, none, some 0, some 2⟩).range
        = (mkParamNode [] ⟨("p"), 0, none, some 0, some 2⟩).max
          - (mkParamNode [] ⟨("p"), 0, none, some 0, some 2⟩).min :=
  ⟨(c6_param_defaults [] _).2.1 2 rfl (by norm_num),
   (c6_param_defaults [] _).2.2.2.1 0 rfl,
   (c6_param_defaults [] _).2.2.2.2.1 rfl,
   (c6_param_defaults [] _).2.2.2.2.2.2⟩

/-- C4 counterexample: a float parameter with integer `min = 0`,
`max = 2`, `default = 0` has `0 < range = 2 < 10`, yet its derived step
size is `range / 100 = 1/50`, not `1/12` — the `1/12` branch additionally
requires `range > 2`. -/
theorem c4_counterexample :
    (mkParamNode [] ⟨("p"), 0, some 0, some 0, some 2⟩).type = ("float")
    ∧ (mkParamNode [] ⟨("p"), 0, some 0, some 0, some 2⟩).min.den = 1
    ∧ (mkParamNode [] ⟨("p"), 0, some 0, some 0, some 2⟩).max.den = 1
    ∧ (mkParamNode [] ⟨("p"), 0, some 0, some 0, some 2⟩).dflt.den = 1
    ∧ 0 < (mkParamNode [] ⟨("p"), 0, some 0, some 0, some 2⟩).range
    ∧ (mkParamNode [] ⟨("p"), 0, some 0, some 0, some 2⟩).range < 10
    ∧ (mkParamNode [] ⟨("p"), 0, some 0, some 0, some 2⟩).stepsize = 1 / 50
    ∧ (mkParamNode [] ⟨("p"), 0, some 0, some 0, some 2⟩).stepsize ≠ 1 / 12 := by
  have htype : (mkParamNode [] ⟨("p"), 0, some 0, some 0, some 2⟩).type = ("float") := rfl
  have hstep : (mkParamNode [] ⟨("p"), 0, some 0, some 0, some 2⟩).stepsize = 1 / 50 := by
    have h : (mkParamNode [] ⟨("p"), 0, some 0, some 0, some 2⟩).stepsize
        = deriveStepsize ("float") 2 2 0 := by
      norm_num [mkParamNode, jsOr, resolveParam, sortPairs, sortLe]
    rw [h, deriveStepsize]
    rw [if_neg (by decide : ¬ ((("float") == ("bool") || ("float") == ("int")) = true)),
      if_neg (by norm_num : ¬ ((2:ℚ) < 2 ∧ (2:ℚ).den = 1 ∧ (2:ℚ).den = 1 ∧ (0:ℚ).den = 1))]
    norm_num
  refine ⟨htype, ?_, ?_, ?_, ?_, ?_, hstep, ?_⟩
  · norm_num [mkParamNode, jsOr]
  · norm_num [mkParamNode, jsOr]
  · norm_num [mkParamNode, jsOr]
  · norm_num [mkParamNode, jsOr]
  · norm_num [mkParamNode, jsOr]
  · rw [hstep]
    norm_num

/-- C4 (amended): for every visible parameter whose derived type is not
`int` or `bool`, with integer `min`, `max` and `default` and range
`2 < range < 10`, the derived control step size equals `1/12`.
(The code requires `range > 2`, not `range > 0`; the integrality of `min`
is in fact never tested by the code.) -/
theorem c4_step_one_twelfth (tbl : List (String × String)) (p : PDesc)
    (h1 : (mkParamNode tbl p).type ≠ ("int"))
    (h2 : (mkParamNode tbl p).type ≠ ("bool"))
    (hmin : (mkParamNode tbl p).min.den = 1)
    (hmax : (mkParamNode tbl p).max.den = 1)
    (hdf : (mkParamNode tbl p).dflt.den = 1)
    (hlo : 2 < (mkParamNode tbl p).range)
    (hhi : (mkParamNode tbl p).range < 10) :
    (mkParamNode tbl p).stepsize = 1 / 12 := by
  have hstep : (mkParamNode tbl p).stepsize
      = deriveStepsize (mkParamNode tbl p).type (mkParamNode tbl p).range
          (mkParamNode tbl p).max (mkParamNode tbl p).dflt := rfl
  have hb : ((mkParamNode tbl p).type == ("bool")
      || (mkParamNode tbl p).type == ("int")) = false := by
    simp [h1, h2]
  rw [hstep, deriveStepsize]
  simp only [hb, Bool.false_eq_true, if_false]
  rw [if_pos ⟨hlo, hmax, hmax, hdf⟩, if_pos hhi]

/-- Witness for C4 (amended): `min = 0`, `max = 7`, `default = 0` gives
step size `1/12`. -/
theorem c4_witness :
    (mkParamNode [] ⟨("lfo"), 1, some 0, some 0, some 7⟩).stepsize = 1 / 12 := by
  apply c4_step_one_twelfth
  · decide
  · decide
  · norm_num [mkParamNode, jsOr]
  · norm_num [mkParamNode, jsOr]
  · norm_num [mkParamNode, jsOr]
  · norm_num [mkParamNode, jsOr]
  · norm_num [mkParamNode, jsOr]

/-- C5: for every visible parameter of derived type float with integer
`max` and `default` and `range > 2`, `range ≥ 10`, the derived step size
is `2 ^ round(log₂(range/100))` — stated via the defining window
`2^(2k-1) ≤ (range/100)² < 2^(2k+1)` of `k = round(log₂(range/100))`;
in particular `min = 0`, `max = 127`, `default = 0` derives step size
exactly `1`. -/
theorem c5_step_log2_subdivision :
    (∀ (tbl : List (String × String)) (p : PDesc),
        (mkParamNode tbl p).type = ("float") →
        (mkParamNode tbl p).max.den = 1 →
        (mkParamNode tbl p).dflt.den = 1 →
        2 < (mkParamNode tbl p).range →
        10 ≤ (mkParamNode tbl p).range →
        ∃ k : ℤ, (mkParamNode tbl p).stepsize = 2 ^ k
          ∧ 2 ^ (2 * k - 1) ≤ ((mkParamNode tbl p).range / 100) ^ 2
          ∧ ((mkParamNode tbl p).range / 100) ^ 2 < 2 ^ (2 * k + 1))
    ∧ (mkParamNode [] ⟨("cutoff"), 0, some 0, some 0, some 127⟩).stepsize = 1 := by
  constructor
  · intro tbl p htype hmax hdf hlo h10
    have hstep : (mkParamNode tbl p).stepsize
        = deriveStepsize (mkParamNode tbl p).type (mkParamNode tbl p).range
            (mkParamNode tbl p).max (mkParamNode tbl p).dflt := rfl
    have hb : ((mkParamNode tbl p).type == ("bool")
        || (mkParamNode tbl p).type == ("int")) = false := by
      rw [htype]
      decide
    have hq : (0:ℚ) < (mkParamNode tbl p).range / 100 := by
      apply div_pos (by linarith) (by norm_num)
    refine ⟨roundLog2 ((mkParamNode tbl p).range / 100), ?_,
      (roundLog2_window _ hq).1, (roundLog2_window _ hq).2⟩
    rw [hstep, deriveStepsize]
    simp only [hb, Bool.false_eq_true, if_false]
    rw [if_pos ⟨hlo, hmax, hmax, hdf⟩, if_neg (not_lt.mpr h10)]
  · have h : (mkParamNode [] ⟨("cutoff"), 0, some 0, some 0, some 127⟩).stepsize
        = deriveStepsize ("float") 127 127 0 := by
      norm_num [mkParamNode, jsOr, resolveParam, sortPairs, sortLe]
    rw [h, deriveStepsize]
    have hc1 : ¬ ((("float") == ("bool") || ("float") == ("int")) = true) := by decide
    rw [if_neg hc1, if_pos ⟨by norm_num, by simp, by simp, by simp⟩,
      if_neg (by norm_num : ¬ (127:ℚ) < 10)]
    have hround : roundLog2 ((127:ℚ) / 100) = 0 := by
      apply roundLog2_unique _ _ (by norm_num)
      · have he : (2:ℚ) ^ (2 * (0:ℤ) - 1) = 1 / 2 := by
          norm_num
        rw [he]
        norm_num
      · have he : (2:ℚ) ^ (2 * (0:ℤ) + 1) = 2 := by
          norm_num
        rw [he]
        norm_num
    rw [hround, zpow_zero]

/-- Witness for C5: the general branch applied to `min = 0`, `max = 127`,
`default = 0` (range 127). -/
theorem c5_witness :
    ∃ k : ℤ,
      (mkParamNode [] ⟨("cutoff"), 0, some 0, some 0, some 127⟩).stepsize = 2 ^ k
      ∧ 2 ^ (2 * k - 1)
          ≤ ((mkParamNode [] ⟨("cutoff"), 0, some 0, some 0, some 127⟩).range / 100) ^ 2
      ∧ ((mkParamNode [] ⟨("cutoff"), 0, some 0, some 0, some 127⟩).range / 100) ^ 2
          < 2 ^ (2 * k + 1) :=
  c5_step_log2_subdivision.1 [] ⟨("cutoff"), 0, some 0, some 0, some 127⟩
    rfl (by norm_num [mkParamNode, jsOr]) (by norm_num [mkParamNode, jsOr])
    (by norm_num [mkParamNode, jsOr]) (by norm_num [mkParamNode, jsOr])

/-! ## Fragment interpolation (oopsy.shared.js `interpolate`, lines 12-15)

  interpolate: function (str, data) \x7b
    return str.replace(/\$<([^>]+)>/gm, (s, key) => data[key])
  \x7d

`data[key]` for a key that is not a defined field is `undefined`, which
`String.replace` stringifies to the text "undefined" — the replacement
does NOT throw. -/

/-- Scan for the first `>` in the tail of a `$<...>` occurrence: returns
the (nonempty) key and the remainder after the `>`, or `none` when the
regex `\$<([^>]+)>` cannot match at this position. -/
def splitKey (cs : List Char) : Option (List Char × List Char) :=
  let k := cs.takeWhile (fun c => ! (c == '>'))
  match cs.dropWhile (fun c => ! (c == '>')) with
  | '>' :: rest => if k.isEmpty then none else some (k, rest)
  | _ => none

/-- Try to match the regex `\$<([^>]+)>` at the current position: the
text must begin `$<`, followed by a nonempty `>`-free key and `>`.
Returns the key and the remainder after the match. -/
def splitDollar (cs : List Char) : Option (List Char × List Char) :=
  match cs with
  | '$' :: '<' :: rest => splitKey rest
  | _ => none

/-- One pass of the global regex replace, char by char: at each position
either the regex matches (`splitDollar`) and the replacement text is
emitted with scanning resuming after the match, or the current char is
copied.  `fuel` only bounds the recursion; `fuel = length of the input`
always suffices because every step consumes at least one char. -/
def interpAux (data : List (String × String)) : Nat → List Char → List Char
  | 0, cs => cs
  | fuel + 1, [] => []
  | fuel + 1, c :: cs =>
    match splitDollar (c :: cs) with
    | some kr =>
      ((List.lookup (String.mk kr.1) data).getD ("undefined")).data
        ++ interpAux data fuel kr.2
    | none => c :: interpAux data fuel cs

/-- `interpolate str data` : replace every `$<key>` in `str` by `data[key]`,
stringifying a missing key as "undefined" (exact model of the JS
`str.replace(/\$<([^>]+)>/gm, (s, key) => data[key])`). -/
def interpolate (s : String) (data : List (String × String)) : String :=
  String.mk (interpAux data s.data.length s.data)

theorem interpAux_nil (data : List (String × String)) :
    ∀ fuel : Nat, interpAux data fuel [] = [] := by
  intro fuel
  cases fuel with
  | zero => rfl
  | succ n => rfl

theorem takeWhile_no_gt (k suf : List Char) (h : ∀ c ∈ k, ¬ c = '>') :
    (k ++ '>' :: suf).takeWhile (fun c => ! (c == '>')) = k := by
  induction k with
  | nil => rfl
  | cons c rest ih =>
    have hc : (c == '>') = false := by
      have := h c (List.mem_cons_self c rest)
      simp [this]
    simp only [List.cons_append, List.takeWhile_cons, hc, Bool.not_false, if_true]
    rw [ih (fun x hx => h x (List.mem_cons_of_mem c hx))]

theorem dropWhile_no_gt (k suf : List Char) (h : ∀ c ∈ k, ¬ c = '>') :
    (k ++ '>' :: suf).dropWhile (fun c => ! (c == '>')) = '>' :: suf := by
  induction k with
  | nil => rfl
  | cons c rest ih =>
    have hc : (c == '>') = false := by
      have := h c (List.mem_cons_self c rest)
      simp [this]
    simp only [List.cons_append, List.dropWhile_cons, hc, Bool.not_false, if_true]
    exact ih (fun x hx => h x (List.mem_cons_of_mem c hx))

theorem splitKey_exact (k suf : List Char) (hk : ¬ k = [])
    (h : ∀ c ∈ k, ¬ c = '>') : splitKey (k ++ '>' :: suf) = some (k, suf) := by
  unfold splitKey
  rw [takeWhile_no_gt k suf h, dropWhile_no_gt k suf h]
  simp [List.isEmpty_iff, hk]

theorem splitKey_sound (cs k rest : List Char)
    (h : splitKey cs = some (k, rest)) : cs = k ++ '>' :: rest := by
  unfold splitKey at h
  split at h
  · rename_i r heq
    by_cases hke : (cs.takeWhile (fun c => ! (c == '>'))).isEmpty
    · rw [if_pos hke] at h
      exact absurd h (by simp)
    · rw [if_neg hke] at h
      have h2 := Option.some.inj h
      have hk2 : cs.takeWhile (fun c => ! (c == '>')) = k :=
        congrArg Prod.fst h2
      have hr2 : r = rest := congrArg Prod.snd h2
      calc cs
          = cs.takeWhile (fun c => ! (c == '>'))
            ++ cs.dropWhile (fun c => ! (c == '>')) :=
            (List.takeWhile_append_dropWhile _ _).symm
        _ = k ++ '>' :: rest := by rw [hk2, heq, hr2]
  · exact absurd h (by simp)

theorem splitDollar_sound (cs k rest : List Char)
    (h : splitDollar cs = some (k, rest)) :
    cs = '$' :: '<' :: (k ++ '>' :: rest) := by
  unfold splitDollar at h
  split at h
  · rename_i r
    rw [splitKey_sound r k rest h]
  · exact absurd h (by simp)

theorem splitDollar_ne (c : Char) (cs : List Char) (h : ¬ c = '$') :
    splitDollar (c :: cs) = none := by
  unfold splitDollar
  split
  · rename_i r heq
    have := congrArg (fun l => List.head? l) heq
    simp at this
    exact absurd this h
  · rfl

/-- C9 counterexample: interpolating the fragment `$<missing>` against a
node that does not define the field `missing` is not a fatal error — the
interpolation totally succeeds and emits the placeholder text
`undefined` into the generated source. -/
theorem c9_counterexample :
    interpolate ("$<missing>") [(("name"), ("knob1"))] = ("undefined") := by
  decide

/-- The result of the scan does not depend on the fuel, as long as the
fuel is at least the length of the input (every step consumes at least
one char). -/
theorem interpAux_fuel (data : List (String × String)) :
    ∀ (n : Nat) (cs : List Char) (f1 f2 : Nat),
    cs.length ≤ n → cs.length ≤ f1 → cs.length ≤ f2 →
    interpAux data f1 cs = interpAux data f2 cs := by
  intro n
  induction n with
  | zero =>
    intro cs f1 f2 hn _ _
    have hcs : cs = [] := List.eq_nil_of_length_eq_zero (Nat.le_zero.mp hn)
    subst hcs
    cases f1 <;> cases f2 <;> rfl
  | succ n ih =>
    intro cs f1 f2 hn h1 h2
    cases cs with
    | nil => cases f1 <;> cases f2 <;> rfl
    | cons c cs2 =>
      simp only [List.length_cons] at hn h1 h2
      cases f1 with
      | zero => omega
      | succ g1 =>
        cases f2 with
        | zero => omega
        | succ g2 =>
          simp only [interpAux]
          cases hsd : splitDollar (c :: cs2) with
          | some kr =>
            simp only [hsd]
            congr 1
            have hs := splitDollar_sound (c :: cs2) kr.1 kr.2 (by rw [hsd])
            have hlen := congrArg List.length hs
            simp only [List.length_cons, List.length_append] at hlen
            exact ih kr.2 g1 g2 (by omega) (by omega) (by omega)
          | none =>
            simp only [hsd]
            congr 1
            exact ih cs2 g1 g2 (by omega) (by omega) (by omega)

/-- The key substitution step, with the unresolved `$<key>` occurrence
embedded in arbitrary surrounding text: any `$`-free prefix is copied
verbatim, the occurrence itself becomes the text `undefined`, and
scanning continues in the remaining suffix. -/
theorem interpAux_embedded (data : List (String × String)) (kl : List Char)
    (hk : ¬ kl = []) (hgt : ∀ c ∈ kl, ¬ c = '>')
    (hmiss : List.lookup (String.mk kl) data = none) :
    ∀ (pre : List Char), (∀ c ∈ pre, ¬ c = '$') →
    ∀ (suf : List Char) (fuel : Nat),
    (pre ++ '$' :: '<' :: (kl ++ '>' :: suf)).length ≤ fuel →
    interpAux data fuel (pre ++ '$' :: '<' :: (kl ++ '>' :: suf))
      = pre ++ (("undefined") : String).data ++ interpAux data suf.length suf := by
  intro pre
  induction pre with
  | nil =>
    intro _ suf fuel hfuel
    simp only [List.nil_append, List.length_cons, List.length_append] at hfuel ⊢
    cases fuel with
    | zero => omega
    | succ g =>
      simp only [interpAux]
      have hsd : splitDollar ('$' :: '<' :: (kl ++ '>' :: suf)) = some (kl, suf) := by
        show splitKey (kl ++ '>' :: suf) = some (kl, suf)
        exact splitKey_exact kl suf hk hgt
      simp only [hsd]
      rw [hmiss]
      simp only [Option.getD]
      congr 1
      exact interpAux_fuel data g suf g suf.length (by omega) (by omega) (le_refl _)
  | cons c pre2 ih =>
    intro hpre suf fuel hfuel
    have hc : ¬ c = '$' := hpre c (List.mem_cons_self c pre2)
    simp only [List.cons_append, List.length_cons] at hfuel ⊢
    cases fuel with
    | zero =>
      simp only [List.length_append, List.length_cons] at hfuel
      omega
    | succ g =>
      simp only [interpAux]
      rw [splitDollar_ne c _ hc]
      rw [ih (fun x hx => hpre x (List.mem_cons_of_mem c hx)) suf g
        (by simpa using Nat.le_of_succ_le_succ hfuel)]

/-- C9 (amended): in any code-fragment template of the form
`pre ++ $<key> ++ suf` where the text before the occurrence contains no
`$` (so this is the leftmost occurrence — real fragments contain `$` only
inside `$<...>` occurrences), a key that does not resolve to a defined
field of the node is not a fatal error: the prefix is emitted verbatim,
the literal placeholder text `undefined` is substituted at the
occurrence's position, and the rest of the template continues to be
interpolated (so repeated application covers fragments with several
template variables). -/
theorem c9_unresolved_becomes_undefined (pre key suf : String)
    (data : List (String × String))
    (hpre : ∀ c ∈ pre.data, ¬ c = '$')
    (hne : ¬ key = (""))
    (hgt : ∀ c ∈ key.data, ¬ c = '>')
    (hmiss : List.lookup key data = none) :
    interpolate (pre ++ ("$<") ++ key ++ (">") ++ suf) data
      = pre ++ ("undefined") ++ interpolate suf data := by
  cases pre with
  | mk pl =>
    cases key with
    | mk kl =>
      cases suf with
      | mk sl =>
        have hkl : ¬ kl = [] := by
          intro h
          apply hne
          rw [h]
        have hdata : ((String.mk pl ++ ("$<") ++ String.mk kl ++ (">")
            ++ String.mk sl : String)).data
            = pl ++ '$' :: '<' :: (kl ++ '>' :: sl) := by
          simp [String.data_append]
        unfold interpolate
        rw [hdata]
        rw [interpAux_embedded data kl hkl hgt hmiss pl hpre sl _ (le_refl _)]
        apply String.ext
        simp [String.data_append]

/-- Witness for C9 (amended): the variable `$<brightness>` embedded in a
real fragment shape, with the key missing from a node whose only field is
`name`. -/
theorem c9_witness :
    interpolate (("hardware.led1.Set(") ++ ("$<") ++ ("brightness") ++ (">") ++ (");"))
        [(("name"), ("led1"))]
      = ("hardware.led1.Set(") ++ ("undefined")
          ++ interpolate (");") [(("name"), ("led1"))] :=
  c9_unresolved_becomes_undefined ("hardware.led1.Set(") ("brightness") (");")
    [(("name"), ("led1"))] (by decide) (by decide) (by decide) (by decide)

/-! ## The component registry (oopsy.shared.js `component_defs`)

`template(str, vars)` evaluates `str` as a JS template literal against the
object's fields.  Every template string in the registry's mapping names
and get/set codes interpolates only `$\x7bname\x7d`, so it is modelled
exactly by textual substitution of the instance name (`templApply`). -/

/-- Substitute every occurrence of the literal pattern `$\x7bname\x7d` by
`nm`; `fuel = length of the input` always suffices. -/
def templAux (nm : List Char) : Nat → List Char → List Char
  | 0, cs => cs
  | fuel + 1, [] => []
  | fuel + 1, c :: cs =>
    if (c :: cs).take 7 = ['$', '\x7b', 'n', 'a', 'm', 'e', '\x7d'] then
      nm ++ templAux nm fuel ((c :: cs).drop 7)
    else c :: templAux nm fuel cs

/-- The `template` interpolation of oopsy.shared.js (lines 17-29), for the
registry templates (whose only template variable is the instance name). -/
def templApply (tpl : String) (nm : String) : String :=
  String.mk (templAux nm.data tpl.data.length tpl.data)

/-- One mapping entry of a component kind: a name template, a read (`get`)
or write (`set`) expression template, an optional numeric range (`none`
models both JS `null` and an absent field) and an optional execution
domain. -/
structure CMapping where
  nameTpl : String
  get : Option String
  set : Option String
  range : Option (Int × Int)
  whereDom : Option String
deriving DecidableEq

/-- The default shape of a component kind: C++ typename, default pin
spec, the remaining scalar defaults as key/value text (JS booleans are
rendered as their literals), and the mapping list. -/
structure CompDef where
  typename : String
  pin : String
  opts : List (String × String)
  mapping : List CMapping
deriving DecidableEq

def switchDef : CompDef :=
  ⟨("daisy::Switch"), ("a"),
   [(("type"), ("daisy::Switch::TYPE_MOMENTARY")),
    (("polarity"), ("daisy::Switch::POLARITY_INVERTED")),
    (("pull"), ("daisy::Switch::PULL_UP")),
    (("process"), ("${name}.Debounce();")),
    (("updaterate"), ("${name}.SetUpdateRate(seed.AudioCallbackRate());"))],
   [⟨("${name}"), some ("(hardware.${name}.Pressed()?1.f:0.f)"), none, some (0, 1), none⟩,
    ⟨("${name}_rise"), some ("(hardware.${name}.RisingEdge()?1.f:0.f)"), none,
      some (0, 1), none⟩,
    ⟨("${name}_fall"), some ("(hardware.${name}.FallingEdge()?1.f:0.f)"), none,
      some (0, 1), none⟩,
    ⟨("${name}_seconds"), some ("(hardware.${name}.TimeHeldMs()*0.001f)"), none,
      none, none⟩]⟩

def switch3Def : CompDef :=
  ⟨("daisy::Switch3"), ("a,b"), [],
   [⟨("${name}"), some ("(hardware.${name}.Read()*0.5f+0.5f)"), none, some (0, 2), none⟩]⟩

def encoderDef : CompDef :=
  ⟨("daisy::Encoder"), ("a,b,click"),
   [(("process"), ("${name}.Debounce();")),
    (("updaterate"), ("${name}.SetUpdateRate(seed.AudioCallbackRate());"))],
   [⟨("${name}"), some ("(hardware.${name}.Increment()*0.5f+0.5f)"), none,
      some (-1, 1), none⟩,
    ⟨("${name}_press"), some ("(hardware.${name}.Pressed()?1.f:0.f)"), none,
      some (0, 1), none⟩,
    ⟨("${name}_rise"), some ("(hardware.${name}.RisingEdge()?1.f:0.f)"), none,
      some (0, 1), none⟩,
    ⟨("${name}_fall"), some ("(hardware.${name}.FallingEdge()?1.f:0.f)"), none,
      some (0, 1), none⟩,
    ⟨("${name}_seconds"), some ("(hardware.${name}.TimeHeldMs()*0.001f)"), none,
      none, none⟩]⟩

def gateInDef : CompDef :=
  ⟨("daisy::GateIn"), ("a"), [],
   [⟨("${name}"), some ("(hardware.${name}.State()?1.f:0.f)"), none, some (0, 1), none⟩,
    ⟨("${name}_trig"), some ("(hardware.${name}.Trig()?1.f:0.f)"), none,
      some (0, 1), none⟩]⟩

def analogControlDef : CompDef :=
  ⟨("daisy::AnalogControl"), ("a"),
   [(("flip"), ("false")), (("invert"), ("false")),
    (("slew"), ("1.0/seed.AudioCallbackRate()")),
    (("process"), ("${name}.Process();")),
    (("updaterate"), ("${name}.SetSampleRate(seed.AudioCallbackRate());"))],
   [⟨("${name}"), some ("(hardware.${name}.Value())"), none, some (0, 1), none⟩]⟩

def ledDef : CompDef :=
  ⟨("daisy::Led"), ("a"),
   [(("invert"), ("true")), (("postprocess"), ("${name}.Update();"))],
   [⟨("${name}"), none, some ("hardware.${name}.Set($<name>);"), none, none⟩]⟩

def rgbLedDef : CompDef :=
  ⟨("daisy::RgbLed"), ("r,g,b"),
   [(("invert"), ("true")), (("postprocess"), ("${name}.Update();"))],
   [⟨("${name}_red"), none, some ("hardware.${name}.SetRed($<name>);"), none, none⟩,
    ⟨("${name}_green"), none, some ("hardware.${name}.SetGreen($<name>);"), none, none⟩,
    ⟨("${name}_blue"), none, some ("hardware.${name}.SetBlue($<name>);"), none, none⟩,
    ⟨("${name}"), none,
      some ("hardware.${name}.Set(clamp(-$<name>, 0.f, 1.f), 0.f, clamp($<name>, 0.f, 1.f));"),
      none, none⟩,
    ⟨("${name}_white"), none, some ("hardware.${name}.Set($<name>,$<name>,$<name>);"),
      none, none⟩]⟩

def gateOutDef : CompDef :=
  ⟨("daisy::dsy_gpio"), ("a"),
   [(("mode"), ("DSY_GPIO_MODE_OUTPUT_PP")), (("pull"), ("DSY_GPIO_NOPULL"))],
   [⟨("${name}"), none, some ("dsy_gpio_write(&hardware.${name}, $<name> \x7d 0.f);"),
      none, none⟩]⟩

def cvOutsDef : CompDef :=
  ⟨("daisy::DacHandle::Config"), (""),
   [(("bitdepth"), ("daisy::DacHandle::BitDepth::BITS_12")),
    (("buff_state"), ("daisy::DacHandle::BufferState::ENABLED")),
    (("mode"), ("daisy::DacHandle::Mode::POLLING")),
    (("channel"), ("daisy::DacHandle::Channel::BOTH"))],
   [⟨("${name}1"), none,
      some ("hardware.seed.dac.WriteValue(daisy::DacHandle::Channel::ONE, $<name> * 4095);"),
      none, some ("main")⟩,
    ⟨("${name}2"), none,
      some ("hardware.seed.dac.WriteValue(daisy::DacHandle::Channel::TWO, $<name> * 4095);"),
      none, some ("main")⟩]⟩

/-- The fixed component registry, kind name → default shape. -/
def component_defs : List (String × CompDef) :=
  [(("Switch"), switchDef), (("Switch3"), switch3Def), (("Encoder"), encoderDef),
   (("GateIn"), gateInDef), (("AnalogControl"), analogControlDef),
   (("Led"), ledDef), (("RgbLed"), rgbLedDef), (("GateOut"), gateOutDef),
   (("CVOuts"), cvOutsDef)]

/-! ## Target normalization (oopsy.shared.js `generate_target_struct`,
lines 254-280) and IO-table generation (oopsy.js `run`, lines 228-264) -/

/-- A component instance from the target descriptor: instance name, kind
(`def.component`), user-set scalar fields, an optional user mapping
override, the `automap` flag and the `meta` flag. -/
structure CompInst where
  iname : String
  kind : String
  opts : List (String × String)
  mappingO : Option (List CMapping)
  automapFlag : Bool
  metaFlag : Bool
deriving DecidableEq

/-- A component instance after registry defaults were merged in. -/
structure MComp where
  iname : String
  kind : String
  typename : String
  pin : String
  opts : List (String × String)
  mapping : List CMapping
  automapFlag : Bool
  metaFlag : Bool
deriving DecidableEq

/-- The shallow default merge `for k of Object.keys(component): if
(def[k] == undefined) def[k] = component[k]`: every registry field is
copied into the instance unless the instance already sets it. -/
def mergeDefaults (inst : CompInst) (c : CompDef) : MComp :=
  { iname := inst.iname, kind := inst.kind,
    typename := (List.lookup ("typename") inst.opts).getD c.typename,
    pin := (List.lookup ("pin") inst.opts).getD c.pin,
    opts := inst.opts ++ c.opts.filter (fun kv => (List.lookup kv.1 inst.opts).isNone),
    mapping := inst.mappingO.getD c.mapping,
    automapFlag := inst.automapFlag, metaFlag := inst.metaFlag }

/-- Normalization of one instance: registry lookup, defaults merge, or the
fatal `throw new Error("undefined component kind: " + def.component)`. -/
def fleshOne (inst : CompInst) : Except String MComp :=
  match List.lookup inst.kind component_defs with
  | some c => Except.ok (mergeDefaults inst c)
  | none => Except.error (("undefined component kind: ") ++ inst.kind)

/-- `Object.entries(target.components).sort((a,b) => a[1].component <
b[1].component ? -1 : a[1].component > b[1].component ? 1 : 0)`: stable
sort of the instances by kind name. -/
def sortByKind (comps : List CompInst) : List CompInst :=
  sortLe (fun a b => strLe a.kind b.kind) comps

/-- The flesh-out pass of `generate_target_struct`: sort by kind, then
normalize each instance; the first unknown kind aborts the whole run. -/
def fleshComponents (comps : List CompInst) : Except String (List MComp) :=
  (sortByKind comps).mapM fleshOne

/-- An entry of the flattened hardware `inputs` table. -/
structure InEntry where
  code : String
  automapE : Bool
  range : Option (Int × Int)
  whereDom : Option String
deriving DecidableEq

/-- The input-table entries one non-meta component contributes
(oopsy.js `run`, lines 231-263):

  for (let mapping of component.mapping) \x7b
    let name = template(mapping.name, component);
    if (mapping.get) \x7b
      hardware.inputs[name] = \x7b
        code: template(mapping.get, component),
        automap: component.automap && name == component.name,
        range: mapping.range,
        where: mapping.where \x7d
    \x7d \x7d -/
def contributedInputs (c : MComp) : List (String × InEntry) :=
  if c.metaFlag then [] else
  c.mapping.filterMap (fun m =>
    (m.get).map (fun g =>
      let name := templApply m.nameTpl c.iname
      (name, ⟨templApply g c.iname, c.automapFlag && (name == c.iname),
        m.range, m.whereDom⟩)))

theorem mapM_except_ok {α β : Type} (f : α → Except String β) (l : List α)
    (h : ∀ x ∈ l, ∃ y, f x = Except.ok y) : ∃ ys, l.mapM f = Except.ok ys := by
  induction l with
  | nil => exact ⟨[], rfl⟩
  | cons a as ih =>
    obtain ⟨y, hy⟩ := h a (List.mem_cons_self a as)
    obtain ⟨ys, hys⟩ := ih (fun x hx => h x (List.mem_cons_of_mem a hx))
    refine ⟨y :: ys, ?_⟩
    rw [List.mapM_cons, hy, hys]
    rfl

theorem mapM_except_error {α β : Type} (f : α → Except String β) (l : List α)
    (x : α) (hx : x ∈ l) (e : String) (hfx : f x = Except.error e) :
    ∃ e2 x2, l.mapM f = Except.error e2 ∧ x2 ∈ l ∧ f x2 = Except.error e2 := by
  induction l with
  | nil => simp at hx
  | cons a as ih =>
    cases hfa : f a with
    | error ea =>
      refine ⟨ea, a, ?_, List.mem_cons_self a as, hfa⟩
      rw [List.mapM_cons, hfa]
      rfl
    | ok y =>
      have hxas : x ∈ as := by
        rcases List.mem_cons.mp hx with rfl | h2
        · rw [hfa] at hfx
          exact absurd hfx (by simp)
        · exact h2
      obtain ⟨e2, x2, hmap, hx2, hfx2⟩ := ih hxas
      refine ⟨e2, x2, ?_, List.mem_cons_of_mem a hx2, hfx2⟩
      rw [List.mapM_cons, hfa]
      show (List.mapM f as).bind _ = Except.error e2
      rw [hmap]
      rfl

/-- C8: a component instance whose kind is not in the registry makes
normalization fail with a fatal error naming an offending kind; when every
kind is registered, normalization succeeds, and the per-instance lookup
yields the registered default shape (pin and mapping list come from the
registry whenever the instance does not override them). -/
theorem c8_unknown_component_kind :
    (∀ (comps : List CompInst) (inst : CompInst), inst ∈ comps →
        List.lookup inst.kind component_defs = none →
        ∃ k, fleshComponents comps = Except.error (("undefined component kind: ") ++ k)
          ∧ ∃ inst2, inst2 ∈ comps ∧ inst2.kind = k
              ∧ List.lookup k component_defs = none)
    ∧ (∀ comps : List CompInst,
        (∀ inst ∈ comps, (List.lookup inst.kind component_defs).isSome) →
        ∃ ms, fleshComponents comps = Except.ok ms)
    ∧ (∀ (inst : CompInst) (c : CompDef),
        List.lookup inst.kind component_defs = some c →
        fleshOne inst = Except.ok (mergeDefaults inst c)
          ∧ (inst.mappingO = none → (mergeDefaults inst c).mapping = c.mapping)
          ∧ (List.lookup ("pin") inst.opts = none →
              (mergeDefaults inst c).pin = c.pin)) := by
  have hms : ∀ (x : CompInst) (comps : List CompInst),
      x ∈ sortByKind comps ↔ x ∈ comps := by
    intro x comps
    unfold sortByKind
    exact mem_sortLe _ _ _
  refine ⟨?_, ?_, ?_⟩
  · intro comps inst hmem hnone
    have hmem2 : inst ∈ sortByKind comps := (hms inst comps).mpr hmem
    have hf : fleshOne inst = Except.error (("undefined component kind: ") ++ inst.kind) := by
      unfold fleshOne
      rw [hnone]
    obtain ⟨e2, x2, hmap, hx2, hfx2⟩ :=
      mapM_except_error fleshOne (sortByKind comps) inst hmem2 _ hf
    have hx2none : List.lookup x2.kind component_defs = none := by
      unfold fleshOne at hfx2
      cases hlk : List.lookup x2.kind component_defs with
      | some c =>
        rw [hlk] at hfx2
        exact absurd hfx2 (by simp)
      | none => rfl
    have he2 : e2 = ("undefined component kind: ") ++ x2.kind := by
      unfold fleshOne at hfx2
      rw [hx2none] at hfx2
      exact (Except.error.inj hfx2).symm
    refine ⟨x2.kind, ?_, x2, ?_, rfl, hx2none⟩
    · rw [← he2]
      exact hmap
    · exact (hms x2 comps).mp hx2
  · intro comps h
    apply mapM_except_ok
    intro x hx
    have hx2 : x ∈ comps := (hms x comps).mp hx
    cases hlk : List.lookup x.kind component_defs with
    | some c =>
      refine ⟨mergeDefaults x c, ?_⟩
      unfold fleshOne
      rw [hlk]
    | none =>
      have := h x hx2
      rw [hlk] at this
      exact absurd this (by simp)
  · intro inst c hlk
    refine ⟨?_, ?_, ?_⟩
    · unfold fleshOne
      rw [hlk]
    · intro h
      simp [mergeDefaults, h]
    · intro h
      simp [mergeDefaults, h]

/-- Witness for C8: a target with a bogus kind fails naming it; a target
with one `AnalogControl` knob normalizes, and the `AnalogControl` lookup
returns the registered default shape. -/
theorem c8_witness :
    (∃ k, fleshComponents [⟨("x1"), ("Bogus"), [], none, false, false⟩]
        = Except.error (("undefined component kind: ") ++ k)
      ∧ ∃ inst2, inst2 ∈ [(⟨("x1"), ("Bogus"), [], none, false, false⟩ : CompInst)]
          ∧ inst2.kind = k ∧ List.lookup k component_defs = none)
    ∧ (∃ ms, fleshComponents [⟨("knob1"), ("AnalogControl"), [], none, true, false⟩]
        = Except.ok ms)
    ∧ (fleshOne ⟨("knob1"), ("AnalogControl"), [], none, true, false⟩
        = Except.ok (mergeDefaults ⟨("knob1"), ("AnalogControl"), [], none, true, false⟩
            analogControlDef)
      ∧ ((mergeDefaults ⟨("knob1"), ("AnalogControl"), [], none, true, false⟩
            analogControlDef).mapping = analogControlDef.mapping)
      ∧ ((mergeDefaults ⟨("knob1"), ("AnalogControl"), [], none, true, false⟩
            analogControlDef).pin = analogControlDef.pin)) := by
  refine ⟨?_, ?_, ?_⟩
  · exact c8_unknown_component_kind.1 [⟨("x1"), ("Bogus"), [], none, false, false⟩]
      ⟨("x1"), ("Bogus"), [], none, false, false⟩ (List.mem_cons_self _ _) (by decide)
  · exact c8_unknown_component_kind.2.1
      [⟨("knob1"), ("AnalogControl"), [], none, true, false⟩] (by decide)
  · have h := c8_unknown_component_kind.2.2
      ⟨("knob1"), ("AnalogControl"), [], none, true, false⟩ analogControlDef (by decide)
    exact ⟨h.1, h.2.1 rfl, h.2.2 rfl⟩

/-- A string extended by a nonempty char suffix differs from the
original. -/
theorem ne_of_data_append (s : String) (suffix : List Char)
    (hs : ¬ suffix = []) (t : String) (ht : t.data = s.data ++ suffix) :
    ¬ t = s := by
  intro h
  subst h
  have hlen := congrArg List.length ht
  rw [List.length_append] at hlen
  cases suffix with
  | nil => exact hs rfl
  | cons c cs => simp at hlen

/-- C10: among the input-table entries a non-meta component contributes,
only the entry whose interpolated mapping name equals the instance name
itself can carry `automap = true`, and only when the component declares
`automap`; every entry whose name differs from the instance name (in
particular every derived `_rise`/`_fall`/`_press`/`_seconds`/`_trig`
mapping, whose interpolated name strictly extends the instance name)
registers with `automap = false`, so the fill-pass never auto-connects a
derived mapping to a parameter. -/
theorem c10_automap_only_base_mapping :
    (∀ (c : MComp) (e : String × InEntry), e ∈ contributedInputs c →
        e.2.automapE = true → e.1 = c.iname ∧ c.automapFlag = true)
    ∧ (∀ (c : MComp) (e : String × InEntry), e ∈ contributedInputs c →
        ¬ e.1 = c.iname → e.2.automapE = false)
    ∧ (∀ nm : String,
        ¬ templApply ("${name}_rise") nm = nm
        ∧ ¬ templApply ("${name}_fall") nm = nm
        ∧ ¬ templApply ("${name}_press") nm = nm
        ∧ ¬ templApply ("${name}_seconds") nm = nm
        ∧ ¬ templApply ("${name}_trig") nm = nm) := by
  have hentry : ∀ (c : MComp) (e : String × InEntry), e ∈ contributedInputs c →
      e.2.automapE = (c.automapFlag && (e.1 == c.iname)) := by
    intro c e he
    unfold contributedInputs at he
    by_cases hm : c.metaFlag
    · rw [if_pos hm] at he
      simp at he
    · rw [if_neg hm] at he
      obtain ⟨m, hmem, hfm⟩ := List.mem_filterMap.mp he
      cases hg : m.get with
      | none =>
        rw [hg] at hfm
        exact absurd hfm (by simp)
      | some g =>
        rw [hg] at hfm
        simp only [Option.map_some] at hfm
        rw [← Option.some.inj hfm]
  refine ⟨?_, ?_, ?_⟩
  · intro c e he hauto
    rw [hentry c e he] at hauto
    simp only [Bool.and_eq_true] at hauto
    exact ⟨eq_of_beq hauto.2, hauto.1⟩
  · intro c e he hne
    rw [hentry c e he]
    have : (e.1 == c.iname) = false := by
      rw [beq_eq_false_iff_ne]
      exact hne
    rw [this, Bool.and_false]
  · intro nm
    cases nm with
    | mk l =>
      refine ⟨?_, ?_, ?_, ?_, ?_⟩
      · apply ne_of_data_append _ ['_', 'r', 'i', 's', 'e'] (by decide)
        rfl
      · apply ne_of_data_append _ ['_', 'f', 'a', 'l', 'l'] (by decide)
        rfl
      · apply ne_of_data_append _ ['_', 'p', 'r', 'e', 's', 's'] (by decide)
        rfl
      · apply ne_of_data_append _ ['_', 's', 'e', 'c', 'o', 'n', 'd', 's'] (by decide)
        rfl
      · apply ne_of_data_append _ ['_', 't', 'r', 'i', 'g'] (by decide)
        rfl

/-- The merged `Switch` instance named `button` with `automap` set, used
as the concrete witness component for C10. -/
def mcButton : MComp :=
  mergeDefaults ⟨("button"), ("Switch"), [], none, true, false⟩ switchDef

/-- Witness for C10: for the `button` Switch instance, the base entry
(named `button`) is the automapped one, and the derived `button_rise`
entry registers with `automap = false`. -/
theorem c10_witness :
    ((("button") : String),
        (⟨("(hardware.button.Pressed()?1.f:0.f)"), true, some (0, 1), none⟩ : InEntry)).1
      = mcButton.iname
    ∧ mcButton.automapFlag = true
    ∧ ((("button_rise") : String),
        (⟨("(hardware.button.RisingEdge()?1.f:0.f)"), false, some (0, 1), none⟩ : InEntry)).2.automapE
      = false := by
  have h1 := c10_automap_only_base_mapping.1 mcButton
    ((("button")), ⟨("(hardware.button.Pressed()?1.f:0.f)"), true, some (0, 1), none⟩)
    (by decide) (by decide)
  have h2 := c10_automap_only_base_mapping.2.1 mcButton
    ((("button_rise")), ⟨("(hardware.button.RisingEdge()?1.f:0.f)"), false,
      some (0, 1), none⟩)
    (by decide) (by decide)
  exact ⟨h1.1, h1.2, h2⟩

/-! ## Audio outlets (oopsy.js `generate_app`, lines 737-788) and the
audio-output fan-in normalization (lines 908-920) -/

/-- A graph node, as far as the audio-out passes read or write it. -/
structure GNode where
  src : Option String
  toN : List String
  fromN : List String
  label : String
deriving DecidableEq

/-- The `nodes` object: name-keyed store, newest binding first (JS
property assignment replaces; lookups here always hit the newest
binding). -/
def Store : Type := List (String × GNode)

/-- `nodes[n] = nd` (fresh names in the passes modelled here). -/
def Store.ins (st : Store) (n : String) (nd : GNode) : Store := (n, nd) :: st

/-- Mutate the node bound to `n` in place. -/
def Store.upd (st : Store) (n : String) (f : GNode → GNode) : Store :=
  List.map (fun p => if p.1 = n then (p.1, f p.2) else p) st

def Store.setSrc (st : Store) (n v : String) : Store :=
  st.upd n (fun nd => ⟨some v, nd.toN, nd.fromN, nd.label⟩)

def Store.pushTo (st : Store) (n v : String) : Store :=
  st.upd n (fun nd => ⟨nd.src, nd.toN ++ [v], nd.fromN, nd.label⟩)

def Store.pushFrom (st : Store) (n v : String) : Store :=
  st.upd n (fun nd => ⟨nd.src, nd.toN, nd.fromN ++ [v], nd.label⟩)

def Store.setLabel (st : Store) (n v : String) : Store :=
  st.upd n (fun nd => ⟨nd.src, nd.toN, nd.fromN, v⟩)

def Store.find (st : Store) (n : String) : Option GNode := List.lookup n st

theorem lookup_ins (st : Store) (n : String) (nd : GNode) (s : String) :
    Store.find (Store.ins st n nd) s = if s = n then some nd else Store.find st s := by
  unfold Store.find Store.ins
  by_cases h : s = n
  · simp [List.lookup, h]
  · have hb : (s == n) = false := by
      rw [beq_eq_false_iff_ne]
      exact h
    simp [List.lookup, hb, h]

theorem lookup_upd (st : Store) (n : String) (f : GNode → GNode) (s : String) :
    Store.find (Store.upd st n f) s
      = (Store.find st s).map (fun nd => if s = n then f nd else nd) := by
  induction st with
  | nil => rfl
  | cons p rest ih =>
    unfold Store.upd Store.find at *
    simp only [List.map_cons]
    by_cases hpn : p.1 = n
    · rw [if_pos hpn]
      by_cases hsp : s = p.1
      · simp [List.lookup, hsp, hpn]
      · have hb : (s == p.1) = false := by
          rw [beq_eq_false_iff_ne]
          exact hsp
        simp only [List.lookup, hb]
        exact ih
    · rw [if_neg hpn]
      by_cases hsp : s = p.1
      · have hsn : ¬ s = n := by
          intro h
          exact hpn (hsp.symm.trans h)
        have hbp : (s == p.1) = true := by
          rw [beq_iff_eq]
          exact hsp
        simp [List.lookup, hbp, hsn]
      · have hb : (s == p.1) = false := by
          rw [beq_eq_false_iff_ne]
          exact hsp
        simp only [List.lookup, hb]
        exact ih

/-- JS `s.replace(/"/g, "").trim()` (ASCII whitespace). -/
def stripQuotesTrim (s : String) : String :=
  let ws : Char → Bool := fun c => c == ' ' || c == '\t' || c == '\n' || c == '\r'
  let noq := s.data.filter (fun c => ! (c == '"'))
  String.mk (((noq.dropWhile ws).reverse.dropWhile ws).reverse)

/-- Step-3 state: the node store and `app.audio_outs` (the glue buffer
names). -/
structure S3State where
  st : Store
  appOuts : List String

/-- One iteration of `rnbo.audio_outs = app.patch.outs.map((s,i) => ...)`
(oopsy.js lines 737-788): bind the outlet to the raw output slot at its
index (or a fresh glue buffer), resolve the label against the output-label
table, and either reroute to the mapped hardware output or mark the slot
as plain audio data by `nodes[src].src = src` (self-reference). -/
def audioOutStep (outsTbl : List (String × String)) (slots : List String)
    (acc : S3State) (p : Nat × String) : S3State :=
  let i := p.1
  let label0 := stripQuotesTrim p.2
  let name := ("rnbo_out") ++ toString (i + 1)
  let sga : String × Store × List String :=
    match slots[i]? with
    | some s => (s, acc.st, acc.appOuts)
    | none =>
      let g := ("glue_out") ++ toString (i + 1)
      (g, Store.ins acc.st g ⟨none, [], [], ("")⟩, acc.appOuts ++ [g])
  let src := sga.1
  let st1 := Store.ins sga.2.1 name ⟨some src, [], [], ("")⟩
  match resolveOutFull outsTbl label0 with
  | some r =>
    let st2 := Store.setLabel st1 name r.2.2
    let st3 := Store.pushTo (Store.pushFrom st2 r.2.1 src) src r.2.1
    ⟨st3, sga.2.2⟩
  | none =>
    let st2 := Store.setSrc st1 src src
    let st3 := Store.setLabel st2 name label0
    ⟨st3, sga.2.2⟩

/-- The whole step-3 pass over the patch's audio outlets. -/
def audioOutsPass (outsTbl : List (String × String)) (slots : List String)
    (outlets : List String) (st0 : Store) : S3State :=
  (outlets.enum).foldl (audioOutStep outsTbl slots) ⟨st0, []⟩

/-- The slot-src invariant: every raw audio-output slot's `src` is either
unset or its own name. -/
def SlotInv (slots : List String) (st : Store) : Prop :=
  ∀ s ∈ slots, ∀ nd : GNode, Store.find st s = some nd →
    nd.src = none ∨ nd.src = some s

theorem strStartsWith_append (a b : String) : strStartsWith (a ++ b) a = true := by
  unfold strStartsWith
  rw [String.data_append]
  induction a.data with
  | nil => rfl
  | cons c cs ih =>
    simp only [List.cons_append, isPrefixChars, beq_self_eq_true, Bool.true_and]
    exact ih

theorem slotInv_upd_srcpres (slots : List String) (st : Store) (n : String)
    (f : GNode → GNode) (hf : ∀ nd, (f nd).src = nd.src)
    (h : SlotInv slots st) : SlotInv slots (Store.upd st n f) := by
  intro s hs nd hnd
  rw [lookup_upd] at hnd
  cases hfind : Store.find st s with
  | none =>
    rw [hfind] at hnd
    exact absurd hnd (by simp)
  | some nd0 =>
    rw [hfind] at hnd
    rw [Option.map_some'] at hnd
    have hnd2 := Option.some.inj hnd
    by_cases hsn : s = n
    · rw [if_pos hsn] at hnd2
      rw [← hnd2, hf nd0]
      exact h s hs nd0 hfind
    · rw [if_neg hsn] at hnd2
      rw [← hnd2]
      exact h s hs nd0 hfind

theorem slotInv_ins_fresh (slots : List String) (st : Store) (n : String)
    (nd : GNode) (hn : n ∉ slots) (h : SlotInv slots st) :
    SlotInv slots (Store.ins st n nd) := by
  intro s hs nd2 hnd
  rw [lookup_ins] at hnd
  by_cases hsn : s = n
  · subst hsn
    exact absurd hs hn
  · rw [if_neg hsn] at hnd
    exact h s hs nd2 hnd

theorem slotInv_setSrc_self (slots : List String) (st : Store) (n : String)
    (h : SlotInv slots st) : SlotInv slots (Store.setSrc st n n) := by
  intro s hs nd hnd
  unfold Store.setSrc at hnd
  rw [lookup_upd] at hnd
  cases hfind : Store.find st s with
  | none =>
    rw [hfind] at hnd
    exact absurd hnd (by simp)
  | some nd0 =>
    rw [hfind] at hnd
    rw [Option.map_some'] at hnd
    have hnd2 := Option.some.inj hnd
    by_cases hsn : s = n
    · rw [if_pos hsn] at hnd2
      right
      rw [← hnd2, hsn]

    · rw [if_neg hsn] at hnd2
      rw [← hnd2]
      exact h s hs nd0 hfind

theorem audioOutStep_inv (outsTbl : List (String × String)) (slots : List String)
    (hfresh : ∀ s ∈ slots, strStartsWith s ("rnbo_out") = false
      ∧ strStartsWith s ("glue_out") = false)
    (acc : S3State) (p : Nat × String) (h : SlotInv slots acc.st) :
    SlotInv slots ((audioOutStep outsTbl slots acc p).st) := by
  have hnotname : ∀ t : String, (("rnbo_out") ++ t) ∉ slots := by
    intro t ht
    have := (hfresh _ ht).1
    rw [strStartsWith_append] at this
    exact Bool.noConfusion this
  have hnotglue : ∀ t : String, (("glue_out") ++ t) ∉ slots := by
    intro t ht
    have := (hfresh _ ht).2
    rw [strStartsWith_append] at this
    exact Bool.noConfusion this
  unfold audioOutStep
  cases hslot : slots[p.1]? with
  | some s0 =>
    simp only [hslot]
    have hins : SlotInv slots (Store.ins acc.st (("rnbo_out") ++ toString (p.1 + 1))
        ⟨some s0, [], [], ("")⟩) :=
      slotInv_ins_fresh slots acc.st _ _ (hnotname _) h
    cases hres : resolveOutFull outsTbl (stripQuotesTrim p.2) with
    | some r =>
      simp only [hres]
      exact slotInv_upd_srcpres _ _ _ _ (fun nd => rfl)
        (slotInv_upd_srcpres _ _ _ _ (fun nd => rfl)
          (slotInv_upd_srcpres _ _ _ _ (fun nd => rfl) hins))
    | none =>
      simp only [hres]
      exact slotInv_upd_srcpres _ _ _ _ (fun nd => rfl)
        (slotInv_setSrc_self slots _ s0 hins)
  | none =>
    simp only [hslot]
    have hinsg : SlotInv slots (Store.ins acc.st (("glue_out") ++ toString (p.1 + 1))
        ⟨none, [], [], ("")⟩) :=
      slotInv_ins_fresh slots acc.st _ _ (hnotglue _) h
    have hins : SlotInv slots (Store.ins _ (("rnbo_out") ++ toString (p.1 + 1))
        ⟨some (("glue_out") ++ toString (p.1 + 1)), [], [], ("")⟩) :=
      slotInv_ins_fresh slots _ _ _ (hnotname _) hinsg
    cases hres : resolveOutFull outsTbl (stripQuotesTrim p.2) with
    | some r =>
      simp only [hres]
      exact slotInv_upd_srcpres _ _ _ _ (fun nd => rfl)
        (slotInv_upd_srcpres _ _ _ _ (fun nd => rfl)
          (slotInv_upd_srcpres _ _ _ _ (fun nd => rfl) hins))
    | none =>
      simp only [hres]
      exact slotInv_upd_srcpres _ _ _ _ (fun nd => rfl)
        (slotInv_setSrc_self slots _ _ hins)

theorem audioOutsPass_inv (outsTbl : List (String × String)) (slots : List String)
    (outlets : List String) (st0 : Store)
    (hfresh : ∀ s ∈ slots, strStartsWith s ("rnbo_out") = false
      ∧ strStartsWith s ("glue_out") = false)
    (h0 : SlotInv slots st0) :
    SlotInv slots ((audioOutsPass outsTbl slots outlets st0).st) := by
  unfold audioOutsPass
  have : ∀ (l : List (Nat × String)) (acc : S3State), SlotInv slots acc.st →
      SlotInv slots ((l.foldl (audioOutStep outsTbl slots) acc).st) := by
    intro l
    induction l with
    | nil => intro acc h; exact h
    | cons p ps ih =>
      intro acc h
      exact ih _ (audioOutStep_inv outsTbl slots hfresh acc p h)
  exact this outlets.enum ⟨st0, []⟩ h0

/-- The audio-output fan-in normalization (oopsy.js lines 908-920):

  let available = []
  daisy.audio_outs.forEach((name, i) => \x7b
    const node = nodes[name];
    if (node.src) \x7b available.push(name); \x7d
    else if (available.length) \x7b node.src = available[i % available.length]; \x7d
  \x7d);

modelled on the list of (slot name, slot src) pairs. -/
def fanIn (outs : List (String × Option String)) : List (String × Option String) :=
  (outs.foldl
    (fun (acc : List (String × Option String) × List String) p =>
      match p.2 with
      | some _ => (acc.1 ++ [p], acc.2 ++ [p.1])
      | none =>
        if acc.2.length = 0 then (acc.1 ++ [p], acc.2)
        else (acc.1 ++ [(p.1, some (acc.2.getD (acc.1.length % acc.2.length) ("")))],
          acc.2))
    ([], [])).1

/-- Recursive restatement of `fanIn` with explicit slot index `i` and
`available` list. -/
def fanInRec : List (String × Option String) → Nat → List String →
    List (String × Option String)
  | [], _, _ => []
  | p :: ps, i, av =>
    match p.2 with
    | some _ => p :: fanInRec ps (i + 1) (av ++ [p.1])
    | none =>
      if av.length = 0 then p :: fanInRec ps (i + 1) av
      else (p.1, some (av.getD (i % av.length) (""))) :: fanInRec ps (i + 1) av

theorem fanIn_foldl_eq (outs : List (String × Option String)) :
    ∀ (done : List (String × Option String)) (av : List String),
    (outs.foldl
      (fun (acc : List (String × Option String) × List String) p =>
        match p.2 with
        | some _ => (acc.1 ++ [p], acc.2 ++ [p.1])
        | none =>
          if acc.2.length = 0 then (acc.1 ++ [p], acc.2)
          else (acc.1 ++ [(p.1, some (acc.2.getD (acc.1.length % acc.2.length) ("")))],
            acc.2))
      (done, av)).1 = done ++ fanInRec outs done.length av := by
  induction outs with
  | nil => intro done av; simp [fanInRec]
  | cons p ps ih =>
    intro done av
    obtain ⟨pn, posrc⟩ := p
    cases posrc with
    | some v =>
      simp only [List.foldl_cons, fanInRec]
      rw [ih (done ++ [(pn, some v)]) (av ++ [pn])]
      simp [List.append_assoc]
    | none =>
      simp only [List.foldl_cons, fanInRec]
      by_cases hav : av.length = 0
      · rw [if_pos hav, if_pos hav]
        rw [ih (done ++ [(pn, none)]) av]
        simp [List.append_assoc]
      · rw [if_neg hav, if_neg hav]
        rw [ih (done ++ [(pn, some (av.getD (done.length % av.length) ("")))]) av]
        simp [List.append_assoc]

theorem fanIn_eq_rec (outs : List (String × Option String)) :
    fanIn outs = fanInRec outs 0 [] := by
  unfold fanIn
  rw [fanIn_foldl_eq outs [] []]
  rfl

theorem fanInRec_all_none (outs : List (String × Option String)) :
    ∀ i : Nat, (∀ p ∈ outs, p.2 = none) → fanInRec outs i [] = outs := by
  induction outs with
  | nil => intro i _; rfl
  | cons p ps ih =>
    intro i h
    obtain ⟨pn, posrc⟩ := p
    have hp := h (pn, posrc) (List.mem_cons_self _ _)
    simp only at hp
    subst hp
    simp only [fanInRec, List.length_nil]
    rw [if_pos trivial]
    rw [ih (i + 1) (fun q hq => h q (List.mem_cons_of_mem _ hq))]

/-- The names of the already-assigned slots among the first `k` slots. -/
def assignedPre (outs : List (String × Option String)) (k : Nat) : List String :=
  ((outs.take k).filter (fun p => p.2.isSome)).map Prod.fst

theorem fanInRec_at (outs : List (String × Option String)) :
    ∀ (i0 k : Nat) (av : List String) (nm : String),
    outs[k]? = some (nm, none) →
    (fanInRec outs i0 av)[k]?
      = some (nm,
          if (av ++ assignedPre outs k).length = 0 then none
          else some ((av ++ assignedPre outs k).getD
            ((i0 + k) % (av ++ assignedPre outs k).length) (""))) := by
  induction outs with
  | nil =>
    intro i0 k av nm h
    simp at h
  | cons p ps ih =>
    intro i0 k av nm h
    obtain ⟨pn, posrc⟩ := p
    cases k with
    | zero =>
      simp only [List.getElem?_cons_zero, Option.some.injEq] at h
      have hpn : pn = nm := (Prod.mk.injEq _ _ _ _ ▸ h).1
      have hsrc : posrc = none := (Prod.mk.injEq _ _ _ _ ▸ h).2
      subst hpn
      subst hsrc
      simp only [fanInRec, assignedPre, List.take_zero, List.filter_nil,
        List.map_nil, List.append_nil, Nat.add_zero]
      by_cases hav : av.length = 0
      · rw [if_pos hav, if_pos hav]
        simp
      · rw [if_neg hav, if_neg hav]
        simp
    | succ k =>
      simp only [List.getElem?_cons_succ] at h
      cases posrc with
      | some v =>
        have hpre : assignedPre ((pn, some v) :: ps) (k + 1)
            = pn :: assignedPre ps k := by
          simp [assignedPre, List.filter]
        simp only [fanInRec, List.getElem?_cons_succ]
        rw [ih (i0 + 1) k (av ++ [pn]) nm h]
        rw [hpre]
        have hassoc : av ++ [pn] ++ assignedPre ps k = av ++ (pn :: assignedPre ps k) := by
          simp
        rw [hassoc]
        have hidx : i0 + 1 + k = i0 + (k + 1) := by omega
        rw [hidx]
      | none =>
        have hpre : assignedPre ((pn, none) :: ps) (k + 1) = assignedPre ps k := by
          simp [assignedPre, List.filter]
        rw [hpre]
        simp only [fanInRec]
        by_cases hav : av.length = 0
        · rw [if_pos hav]
          simp only [List.getElem?_cons_succ]
          rw [ih (i0 + 1) k av nm h]
          have hidx : i0 + 1 + k = i0 + (k + 1) := by omega
          rw [hidx]
        · rw [if_neg hav]
          simp only [List.getElem?_cons_succ]
          rw [ih (i0 + 1) k av nm h]
          have hidx : i0 + 1 + k = i0 + (k + 1) := by omega
          rw [hidx]

/-- C7: (a) after the audio-outlet pass, every raw output slot's `src` is
unset or its own name (so "assigned with source A" means `A` is the slot's
own name); (b) concretely, for three slots with only the first
assigned (to its own name, per (a)), the fan-in pass gives the second and
third slot exactly that `src`; (c) a slot with no previously-assigned slot
stays silent, and when no slot at all is assigned the pass changes
nothing; (d) in general, an unassigned slot at index `i` with a nonempty
set of previously-assigned slots resolves to the name of one of them,
cycling by `i mod count`. -/
theorem c7_fan_in_normalization :
    (∀ (outsTbl : List (String × String)) (slots outlets : List String) (st0 : Store),
      (∀ s ∈ slots, strStartsWith s (("rnbo_out")) = false
        ∧ strStartsWith s (("glue_out")) = false) →
      SlotInv slots st0 →
      SlotInv slots ((audioOutsPass outsTbl slots outlets st0).st))
    ∧ fanIn [((("dsy_out1")), some (("dsy_out1"))), ((("dsy_out2")), none),
        ((("dsy_out3")), none)]
      = [((("dsy_out1")), some (("dsy_out1"))), ((("dsy_out2")), some (("dsy_out1"))),
        ((("dsy_out3")), some (("dsy_out1")))]
    ∧ (∀ outs : List (String × Option String),
        (∀ p ∈ outs, p.2 = none) → fanIn outs = outs)
    ∧ (∀ (outs : List (String × Option String)) (i : Nat) (nm : String),
        outs[i]? = some (nm, none) →
        (assignedPre outs i = [] → (fanIn outs)[i]? = some (nm, none))
        ∧ (¬ assignedPre outs i = [] →
            ∃ v, (fanIn outs)[i]? = some (nm, some v)
              ∧ v = (assignedPre outs i).getD (i % (assignedPre outs i).length) ("")
              ∧ v ∈ assignedPre outs i)) := by
  refine ⟨audioOutsPass_inv, by decide, ?_, ?_⟩
  · intro outs h
    rw [fanIn_eq_rec]
    exact fanInRec_all_none outs 0 h
  · intro outs i nm h
    have hat := fanInRec_at outs 0 i [] nm h
    rw [List.nil_append] at hat
    rw [fanIn_eq_rec]
    constructor
    · intro hnil
      rw [hat, hnil]
      rfl
    · intro hnn
      have hlen : ¬ (assignedPre outs i).length = 0 := by
        intro h0
        exact hnn (List.eq_nil_of_length_eq_zero h0)
      refine ⟨(assignedPre outs i).getD (i % (assignedPre outs i).length) (""), ?_, rfl, ?_⟩
      · rw [hat, if_neg hlen, Nat.zero_add]
      · have hmod : i % (assignedPre outs i).length < (assignedPre outs i).length := by
          apply Nat.mod_lt
          omega
        rw [List.getD_eq_getElem?_getD, List.getElem?_eq_getElem hmod]
        exact List.getElem_mem _

/-- Witness for C7: two raw output slots `dsy_out1`, `dsy_out2` with one
outlet labelled `out1` and an empty output-label table: the pass leaves
`dsy_out1` self-assigned and `dsy_out2` unassigned (instantiating the
invariant), and the unassigned third concrete slot resolves to the earlier
assigned one. -/
theorem c7_witness :
    ((match Store.find ((audioOutsPass [] [(("dsy_out1")), (("dsy_out2"))]
        [(("out1"))] [((("dsy_out1")), ⟨none, [], [], ("")⟩),
          ((("dsy_out2")), ⟨none, [], [], ("")⟩)]).st) (("dsy_out1")) with
      | some nd => nd.src = none ∨ nd.src = some (("dsy_out1"))
      | none => True) : Prop)
    ∧ (∃ v, (fanIn [((("a1")), some (("a1"))), ((("a2")), none)])[1]?
        = some ((("a2")), some v)
      ∧ v = (assignedPre [((("a1")), some (("a1"))), ((("a2")), none)] 1).getD
          (1 % (assignedPre [((("a1")), some (("a1"))), ((("a2")), none)] 1).length) ("")
      ∧ v ∈ assignedPre [((("a1")), some (("a1"))), ((("a2")), none)] 1) := by
  constructor
  · cases hf : Store.find ((audioOutsPass [] [(("dsy_out1")), (("dsy_out2"))]
        [(("out1"))] [((("dsy_out1")), ⟨none, [], [], ("")⟩),
          ((("dsy_out2")), ⟨none, [], [], ("")⟩)]).st) (("dsy_out1")) with
    | none => trivial
    | some nd =>
      exact c7_fan_in_normalization.1 [] [(("dsy_out1")), (("dsy_out2"))]
        [(("out1"))] _ (by decide)
        (by
          intro s hs nd2 hnd
          fin_cases hs
          · rw [show Store.find [((("dsy_out1")), (⟨none, [], [], ("")⟩ : GNode)),
              ((("dsy_out2")), ⟨none, [], [], ("")⟩)] (("dsy_out1"))
              = some ⟨none, [], [], ("")⟩ from rfl] at hnd
            rw [← Option.some.inj hnd]
            left
            rfl
          · rw [show Store.find [((("dsy_out1")), (⟨none, [], [], ("")⟩ : GNode)),
              ((("dsy_out2")), ⟨none, [], [], ("")⟩)] (("dsy_out2"))
              = some ⟨none, [], [], ("")⟩ from rfl] at hnd
            rw [← Option.some.inj hnd]
            left
            rfl)
        (("dsy_out1")) (by decide) nd hf
  · exact (c7_fan_in_normalization.2.2.2
      [((("a1")), some (("a1"))), ((("a2")), none)] 1 (("a2")) (by decide)).2 (by decide)

/-! ## The generated compilation unit (oopsy.js `run`, lines 414-468)

`run` assembles the final source text `cppcode` from the hardware
definition, the per-app generated fragments and `new Date().toString()`.
The clock value is modelled as the explicit argument `date`; the
file-system-derived include paths and the fragments generated by
`generate_app` enter as fields of `AppGen`. -/

/-- The per-app inputs of the final template: the posixified relative
include path and the three generated fragments `app.cpp.union`,
`app.cpp.appdef`, `app.cpp.struct`. -/
structure AppGen where
  incpath : String
  unionTxt : String
  appdefTxt : String
  structTxt : String
deriving DecidableEq

/-- The hardware-side inputs of the final template: `hardware.defines` in
insertion order (values already rendered as text), `hardware.struct`,
`hardware.inserts` as (where, code) pairs, and `hardware.samplerate`. -/
structure HwGen where
  defines : List (String × String)
  structTxt : String
  inserts : List (String × String)
  samplerate : Nat
deriving DecidableEq

/-- The final compilation unit, transcribed verbatim from the template
literal at oopsy.js lines 414-468; `date` is `new Date().toString()` and
`boost` is `options.boost` (emitted via `options.boost|false` as 1/0). -/
def cppcode (hw : HwGen) (apps : List AppGen) (boost : Bool) (date : String) : String :=
  ("\n/* \n\nThis code was generated by Oopsy (https://github.com/electro-smith/oopsy) on ")
  ++ date
  ++ ("\n\nOopsy was authored in 2020-2021 by Graham Wakefield and adapted to RNBO by Stefan Brunner.  Copyright 2021 Electrosmith, Corp., Graham Wakefield and Stefan Brunner.\n\nPermission is hereby granted, free of charge, to any person obtaining a copy of this software and associated documentation files (the \"Software\"), to deal in the Software without restriction, including without limitation the rights to use, copy, modify, merge, publish, distribute, sublicense, and/or sell copies of the Software, and to permit persons to whom the Software is furnished to do so, subject to the following conditions:\n\nThe above copyright notice and this permission notice shall be included in all copies or substantial portions of the Software.\n\nTHE SOFTWARE IS PROVIDED \"AS IS\", WITHOUT WARRANTY OF ANY KIND, EXPRESS OR IMPLIED, INCLUDING BUT NOT LIMITED TO THE WARRANTIES OF MERCHANTABILITY, FITNESS FOR A PARTICULAR PURPOSE AND NONINFRINGEMENT. IN NO EVENT SHALL THE AUTHORS OR COPYRIGHT HOLDERS BE LIABLE FOR ANY CLAIM, DAMAGES OR OTHER LIABILITY, WHETHER IN AN ACTION OF CONTRACT, TORT OR OTHERWISE, ARISING FROM, OUT OF OR IN CONNECTION WITH THE SOFTWARE OR THE USE OR OTHER DEALINGS IN THE SOFTWARE.\n*/\n/*\n\tFor details of the licensing terms of code exported from RNBO see https://support.cycling74.com/hc/en-us/articles/10730637742483-RNBO-Export-Licensing-FAQ\n*/\n")
  ++ String.join (hw.defines.map (fun kv => ("\n#define ") ++ kv.1 ++ (" (") ++ kv.2 ++ (")")))
  ++ ("\n") ++ hw.structTxt
  ++ ("\n\n")
  ++ String.intercalate ("\n") ((hw.inserts.filter (fun o => o.1 == ("header"))).map Prod.snd)
  ++ ("\n\n#define RNBO_USE_FLOAT32\n#define RNBO_NOTHROW\n#define RNBO_NOSTL\n#define RNBO_FIXEDLISTSIZE 64\n#define RNBO_USECUSTOMALLOCATOR\n\n#include \"../rnbo_daisy.h\"\n\n")
  ++ String.intercalate ("\n") (apps.map (fun a => ("#include \"") ++ a.incpath ++ ("\"")))
  ++ ("\n")
  ++ String.intercalate ("\n") (apps.map (fun a => a.structTxt))
  ++ ("\n\n// store apps in a union to re-use memory, since only one app is active at once:\nunion \x7b\n\t")
  ++ String.intercalate ("\n\t") (apps.map (fun a => a.unionTxt))
  ++ ("\n\x7d apps;\n\noopsy::AppDef appdefs[] = \x7b\n\t")
  ++ String.intercalate ("\n\t") (apps.map (fun a => a.appdefTxt))
  ++ ("\n\x7d;\n\nint main(void) \x7b\n\t#ifdef OOPSY_TARGET_PATCH_SM\n\toopsy::daisy.hardware.Init(); \n\t#else\n  oopsy::daisy.hardware.Init(")
  ++ (if boost then ("1") else ("0"))
  ++ ("); \n\t#endif\n\toopsy::daisy.hardware.SetAudioSampleRate(daisy::SaiHandle::Config::SampleRate::SAI_")
  ++ toString hw.samplerate
  ++ ("KHZ);\n\toopsy::daisy.hardware.SetAudioBlockSize(")
  ++ (List.lookup ("OOPSY_BLOCK_SIZE") hw.defines).getD ("undefined")
  ++ (");\n\t")
  ++ String.intercalate ("\n\t") ((hw.inserts.filter (fun o => o.1 == ("init"))).map Prod.snd)
  ++ ("\n\t// insert custom hardware initialization here\n\treturn oopsy::daisy.run(appdefs, ")
  ++ toString apps.length
  ++ (");\n\x7d\n")

/-- The constant text of `cppcode` before the spliced timestamp. -/
def cppHeadPre : String :=
  ("\n/* \n\nThis code was generated by Oopsy (https://github.com/electro-smith/oopsy) on ")

/-- Everything of `cppcode` after the spliced timestamp: a pure function
of the descriptors, with no date dependence. -/
def cppTail (hw : HwGen) (apps : List AppGen) (boost : Bool) : String :=
  ("\n\nOopsy was authored in 2020-2021 by Graham Wakefield and adapted to RNBO by Stefan Brunner.  Copyright 2021 Electrosmith, Corp., Graham Wakefield and Stefan Brunner.\n\nPermission is hereby granted, free of charge, to any person obtaining a copy of this software and associated documentation files (the \"Software\"), to deal in the Software without restriction, including without limitation the rights to use, copy, modify, merge, publish, distribute, sublicense, and/or sell copies of the Software, and to permit persons to whom the Software is furnished to do so, subject to the following conditions:\n\nThe above copyright notice and this permission notice shall be included in all copies or substantial portions of the Software.\n\nTHE SOFTWARE IS PROVIDED \"AS IS\", WITHOUT WARRANTY OF ANY KIND, EXPRESS OR IMPLIED, INCLUDING BUT NOT LIMITED TO THE WARRANTIES OF MERCHANTABILITY, FITNESS FOR A PARTICULAR PURPOSE AND NONINFRINGEMENT. IN NO EVENT SHALL THE AUTHORS OR COPYRIGHT HOLDERS BE LIABLE FOR ANY CLAIM, DAMAGES OR OTHER LIABILITY, WHETHER IN AN ACTION OF CONTRACT, TORT OR OTHERWISE, ARISING FROM, OUT OF OR IN CONNECTION WITH THE SOFTWARE OR THE USE OR OTHER DEALINGS IN THE SOFTWARE.\n*/\n/*\n\tFor details of the licensing terms of code exported from RNBO see https://support.cycling74.com/hc/en-us/articles/10730637742483-RNBO-Export-Licensing-FAQ\n*/\n")
  ++ String.join (hw.defines.map (fun kv => ("\n#define ") ++ kv.1 ++ (" (") ++ kv.2 ++ (")")))
  ++ ("\n") ++ hw.structTxt
  ++ ("\n\n")
  ++ String.intercalate ("\n") ((hw.inserts.filter (fun o => o.1 == ("header"))).map Prod.snd)
  ++ ("\n\n#define RNBO_USE_FLOAT32\n#define RNBO_NOTHROW\n#define RNBO_NOSTL\n#define RNBO_FIXEDLISTSIZE 64\n#define RNBO_USECUSTOMALLOCATOR\n\n#include \"../rnbo_daisy.h\"\n\n")
  ++ String.intercalate ("\n") (apps.map (fun a => ("#include \"") ++ a.incpath ++ ("\"")))
  ++ ("\n")
  ++ String.intercalate ("\n") (apps.map (fun a => a.structTxt))
  ++ ("\n\n// store apps in a union to re-use memory, since only one app is active at once:\nunion \x7b\n\t")
  ++ String.intercalate ("\n\t") (apps.map (fun a => a.unionTxt))
  ++ ("\n\x7d apps;\n\noopsy::AppDef appdefs[] = \x7b\n\t")
  ++ String.intercalate ("\n\t") (apps.map (fun a => a.appdefTxt))
  ++ ("\n\x7d;\n\nint main(void) \x7b\n\t#ifdef OOPSY_TARGET_PATCH_SM\n\toopsy::daisy.hardware.Init(); \n\t#else\n  oopsy::daisy.hardware.Init(")
  ++ (if boost then ("1") else ("0"))
  ++ ("); \n\t#endif\n\toopsy::daisy.hardware.SetAudioSampleRate(daisy::SaiHandle::Config::SampleRate::SAI_")
  ++ toString hw.samplerate
  ++ ("KHZ);\n\toopsy::daisy.hardware.SetAudioBlockSize(")
  ++ (List.lookup ("OOPSY_BLOCK_SIZE") hw.defines).getD ("undefined")
  ++ (");\n\t")
  ++ String.intercalate ("\n\t") ((hw.inserts.filter (fun o => o.1 == ("init"))).map Prod.snd)
  ++ ("\n\t// insert custom hardware initialization here\n\treturn oopsy::daisy.run(appdefs, ")
  ++ toString apps.length
  ++ (");\n\x7d\n")

theorem string_append_assoc (a b c : String) : a ++ b ++ c = a ++ (b ++ c) :=
  String.ext (by simp [String.data_append, List.append_assoc])

theorem cppcode_split (hw : HwGen) (apps : List AppGen) (boost : Bool) (date : String) :
    cppcode hw apps boost date = cppHeadPre ++ (date ++ cppTail hw apps boost) := by
  unfold cppcode cppHeadPre cppTail
  simp only [← string_append_assoc]

/-- C2 counterexample: the emitted compilation unit embeds
`new Date().toString()` in its header comment, so two runs on identical
descriptors but different clock values produce different text. -/
theorem c2_counterexample :
    ¬ cppcode ⟨[], (""), [], 48⟩ [] false ("Mon Jan 01 2024")
      = cppcode ⟨[], (""), [], 48⟩ [] false ("Tue Jan 02 2024") := by
  intro h
  rw [cppcode_split, cppcode_split] at h
  have hd := congrArg String.data h
  simp only [String.data_append] at hd
  have hd2 := List.append_cancel_left hd
  have hd3 := List.append_cancel_right hd2
  exact absurd hd3 (by decide)

/-- C2 (amended): the emitted compilation unit equals a fixed header
constant, then the clock value verbatim, then a remainder that is a pure
function of the descriptors alone; in particular, for a fixed clock value,
generation from identical descriptors is byte-identical (the only
timestamp is the one in the header comment). -/
theorem c2_pure_up_to_timestamp (hw : HwGen) (apps : List AppGen) (boost : Bool)
    (d1 d2 : String) :
    cppcode hw apps boost d1 = cppHeadPre ++ (d1 ++ cppTail hw apps boost)
    ∧ (d1 = d2 → cppcode hw apps boost d1 = cppcode hw apps boost d2) :=
  ⟨cppcode_split hw apps boost d1, fun h => by rw [h]⟩

/-- Witness for C2 (amended): a minimal hardware definition and a fixed
clock value. -/
theorem c2_witness :
    cppcode ⟨[], (""), [], 48⟩ [] false ("X")
      = cppHeadPre ++ (("X") ++ cppTail ⟨[], (""), [], 48⟩ [] false)
    ∧ cppcode ⟨[], (""), [], 48⟩ [] false ("X")
      = cppcode ⟨[], (""), [], 48⟩ [] false ("X") :=
  ⟨(c2_pure_up_to_timestamp ⟨[], (""), [], 48⟩ [] false ("X") ("X")).1,
   (c2_pure_up_to_timestamp ⟨[], (""), [], 48⟩ [] false ("X") ("X")).2 rfl⟩

end Oopsy
